import Mathlib

/-!
# Hatena Blog members client: a verification development

A shallow embedding of `internal/client` (URL builder, signing transport wrapper, member
cache, the three API operations) and of the provider's `Configure` step, followed by
theorems about them.

Conventions of the embedding:

* Go strings are Lean `String`s; the path and escaping routines of the Go standard library
  that the client calls (`path.Join`, `path.Clean`, `net/url`'s `URL.String`) are embedded
  over the characters of the string.  `'/'`, `'.'` and every character that `net/url` leaves
  unescaped are ASCII, so working on characters agrees with Go working on UTF-8 bytes.
* The network, the WSSE signing transport, `http.NewRequest`'s URL validation,
  `encoding/json` decoding and the URL handling of `http.Client` on a redirect are
  parameters, collected in `Env`.
* `c.client.Do` is the loop of `http.Client` with its default redirect policy: a response
  with status 301, 302, 303, 307 or 308 and a `Location` header makes it send a further
  request, up to ten in all, and an operation records every request that went to the
  transport.
* `path.joinSpec` states the standard path-join independently of the code of `path.Clean`;
  `path.Join_eq_joinSpec` shows that the embedded code meets it.
* A `[]*BlogMember` slice is a reference to a backing array in an explicit `Heap`, so that
  aliasing between a returned slice and the cache is visible.
-/

namespace HatenablogMembers

/-! ## `path.Clean` and `path.Join` -/

namespace path

/-- The backtracking step of `Clean` on a `..` element,
`out.w--; for out.w > dotdot && out.index(out.w) != '/' { out.w-- }`,
over the buffer held in reverse (last written byte first). -/
def backtrack (dotdot : Nat) : List Char → List Char
  | [] => []
  | c :: rest => if dotdot < rest.length ∧ c ≠ '/' then backtrack dotdot rest else rest

/-- The buffer after `Clean` met a `..` element: backtrack when `out.w > dotdot`, otherwise
append `..` (after a separating slash when the buffer is not empty) unless the path is rooted.
The second component is the new value of `dotdot`. -/
def dotdotElem (rooted : Bool) (out : List Char) (dotdot : Nat) : List Char × Nat :=
  if dotdot < out.length then (backtrack dotdot out, dotdot)
  else if !rooted then
    let out1 := if 0 < out.length then '/' :: out else out
    ('.' :: '.' :: out1, out1.length + 2)
  else (out, dotdot)

/-- The buffer before a real path element is copied:
`if rooted && out.w != 1 || !rooted && out.w != 0 { out.append('/') }`. -/
def addSlash (rooted : Bool) (out : List Char) : List Char :=
  if (rooted && out.length != 1) || (!rooted && out.length != 0) then '/' :: out else out

/-- The main loop `for r < n` of `Clean`.  The first argument tells whether the loop is inside
the inner copy loop of a real path element (`for ; r < n && path[r] != '/'; r++`); the list is
`path[r:]`, `out` is the write buffer in reverse and `dotdot` is the index where `..` must
stop.  Returns the final buffer (in reverse) and `dotdot`. -/
def cleanLoop (rooted : Bool) : Bool → List Char → List Char → Nat → List Char × Nat
  | _, [], out, dotdot => (out, dotdot)
  | true, c :: t, out, dotdot =>
    -- copy element; at a slash the copy loop ends and the main loop skips the slash
    if c = '/' then cleanLoop rooted false t out dotdot
    else cleanLoop rooted true t (c :: out) dotdot
  | false, [c], out, dotdot =>
    -- the last byte: `r+1 == n`
    if c = '/' then cleanLoop rooted false [] out dotdot
    else if c = '.' then cleanLoop rooted false [] out dotdot
    else cleanLoop rooted true [] (c :: addSlash rooted out) dotdot
  | false, c :: d :: u, out, dotdot =>
    if c = '/' then
      -- empty path element
      cleanLoop rooted false (d :: u) out dotdot
    else if c = '.' ∧ d = '/' then
      -- . element
      cleanLoop rooted false (d :: u) out dotdot
    else if c = '.' ∧ d = '.' ∧ (u = [] ∨ u.head? = some '/') then
      -- .. element: remove to last /
      cleanLoop rooted false u (dotdotElem rooted out dotdot).1 (dotdotElem rooted out dotdot).2
    else
      -- real path element
      cleanLoop rooted true (d :: u) (c :: addSlash rooted out) dotdot

/-- The state of `Clean` when its loop ends: the buffer, in reverse, and `dotdot`.  A rooted
path starts with the slash in the buffer and with `r, dotdot = 1, 1`. -/
def cleanOut (p : String) : List Char × Nat :=
  let rooted : Bool := p.data.head? = some '/'
  cleanLoop rooted false (if rooted then p.data.tail else p.data)
    (if rooted then ['/'] else []) (if rooted then 1 else 0)

/-- Go's `path.Clean`. -/
def Clean (p : String) : String :=
  if p = "" then "."
  else
    let out := (cleanOut p).1
    -- Turn empty string into "."
    if out.length = 0 then "." else String.mk out.reverse

/-- The buffer `Join` builds before cleaning: the elements separated by slashes, empty
elements being skipped as long as the buffer is empty. -/
def joinBuf : String → List String → String
  | buf, [] => buf
  | buf, e :: es =>
    if 0 < buf.length ∨ e ≠ "" then
      joinBuf ((if 0 < buf.length then buf ++ "/" else buf) ++ e) es
    else joinBuf buf es

/-- Go's `path.Join`. -/
def Join (elem : List String) : String :=
  if (elem.map String.length).sum = 0 then ""
  else Clean (joinBuf "" elem)

/-- A string is a single real path element: not empty, without a slash, and neither `.` nor
`..`. -/
def IsSegment (u : String) : Prop :=
  u ≠ "" ∧ '/' ∉ u.data ∧ u ≠ "." ∧ u ≠ ".."

/-! ### The standard path-join, as its documentation states it -/

/-- The elements of a path: the pieces between its slashes (a path without slash is one
element, two slashes in a row enclose an empty element). -/
def components : List Char → List (List Char)
  | [] => [[]]
  | c :: t =>
    if c = '/' then [] :: components t
    else
      match components t with
      | [] => [[c]]
      | x :: xs => (c :: x) :: xs

/-- The rules of `path.Clean` on one element, `kept` being the elements kept so far, the last
one first: an empty element (multiple slashes) and a `.` element are dropped; a `..` element
removes the element before it when that is not a `..` itself, is dropped at the start of a
rooted path, and is kept otherwise; any other element is kept. -/
def keep (rooted : Bool) (kept : List (List Char)) (e : List Char) : List (List Char) :=
  if e = [] ∨ e = ['.'] then kept
  else if e = ['.', '.'] then
    match kept with
    | [] => if rooted then [] else [e]
    | last :: before => if last = ['.', '.'] then e :: kept else before
  else e :: kept

/-- The standard path-join, following the documentation of `path.Join` and `path.Clean`
rather than their code: empty elements are ignored and the result is the empty string when
nothing is left; the other elements are split at their slashes, the pieces go through the
rules of `keep`, and the pieces kept are joined with single slashes, after a leading slash
when the first element starts with one; an empty relative result is `.`. -/
def joinSpec (elem : List String) : String :=
  let joined := elem.filter fun e => e ≠ ""
  if joined = [] then ""
  else
    let rooted : Bool := (joined.head?.bind fun e => e.data.head?) = some '/'
    let kept := (joined.flatMap fun e => components e.data).foldl (keep rooted) []
    let body := "/".intercalate (kept.reverse.map String.mk)
    if rooted then "/" ++ body else if body = "" then "." else body

/-- The write buffer of `Clean`, in reverse, that holds the elements `kept` (the last one
first): the elements separated by slashes, after the leading slash of a rooted path. -/
def bufOf (rooted : Bool) : List (List Char) → List Char
  | [] => if rooted then ['/'] else []
  | e :: before =>
    e.reverse ++
      (if before = [] then (if rooted then ['/'] else []) else '/' :: bufOf rooted before)

/-- A real path element, as a list of characters. -/
def IsReal (e : List Char) : Prop :=
  e ≠ [] ∧ '/' ∉ e ∧ e ≠ ['.'] ∧ e ≠ ['.', '.']

/-- The invariant of the loop of `Clean` between two elements: the buffer holds the elements
kept, which are real elements on top of `..` elements (none in a rooted path), and `dotdot`
is the length of the part of the buffer that holds the `..` elements. -/
def KeptInv (rooted : Bool) (kept : List (List Char)) (st : List Char × Nat) : Prop :=
  st.1 = bufOf rooted kept ∧
  ∃ reals dots, kept = reals ++ dots ∧ (∀ e ∈ reals, IsReal e) ∧
    (∀ e ∈ dots, e = ['.', '.']) ∧ (rooted = true → dots = []) ∧
    st.2 = (bufOf rooted dots).length

end path

/-! ## `net/url`: rendering a URL made of scheme, host and path -/

namespace url

/-- The escaping modes of `net/url` that `URL.String` uses for the host and the path. -/
inductive encoding where
  | encodePath
  | encodeHost
  deriving DecidableEq, Repr

/-- Go's `shouldEscape(c, mode)` for the two modes above; a character outside ASCII stands for
bytes of value 0x80 and above, all of which must be escaped. -/
def shouldEscape (c : Char) (mode : encoding) : Bool :=
  -- §2.3 Unreserved characters (alphanum)
  if ('a' ≤ c ∧ c ≤ 'z') ∨ ('A' ≤ c ∧ c ≤ 'Z') ∨ ('0' ≤ c ∧ c ≤ '9') then false
  else if mode = encoding.encodeHost ∧
      c ∈ ['!', '$', '&', '\'', '(', ')', '*', '+', ',', ';', '=', ':', '[', ']', '<', '>',
        '"'] then
    -- §3.2.2 Host allows sub-delims, ':' for the port, '[' ']' for IPv6, '<' '>' '"'
    false
  else if c ∈ ['-', '_', '.', '~'] then false  -- §2.3 Unreserved characters (mark)
  else if c ∈ ['$', '&', '+', ',', '/', ':', ';', '=', '?', '@'] then
    -- §2.2 Reserved characters (reserved)
    match mode with
    | encoding.encodePath => c = '?'
    | encoding.encodeHost => true
  else true  -- Everything else must be escaped.

/-- The UTF-8 bytes of a character. -/
def utf8Bytes (c : Char) : List Nat :=
  let n := c.toNat
  if n < 0x80 then [n]
  else if n < 0x800 then [0xC0 + n / 0x40, 0x80 + n % 0x40]
  else if n < 0x10000 then [0xE0 + n / 0x1000, 0x80 + n / 0x40 % 0x40, 0x80 + n % 0x40]
  else [0xF0 + n / 0x40000, 0x80 + n / 0x1000 % 0x40, 0x80 + n / 0x40 % 0x40, 0x80 + n % 0x40]

/-- Go's `upperhex[i]`. -/
def upperhex (i : Nat) : Char :=
  ['0', '1', '2', '3', '4', '5', '6', '7', '8', '9', 'A', 'B', 'C', 'D', 'E', 'F'].getD i '0'

/-- One escaped byte: `%` followed by two upper-case hexadecimal digits. -/
def escapeByte (b : Nat) : List Char :=
  ['%', upperhex (b / 16), upperhex (b % 16)]

/-- Go's `escape(s, mode)`: every byte that `shouldEscape` selects becomes `%XX`. -/
def escape (s : String) (mode : encoding) : String :=
  String.mk (s.data.flatMap fun c =>
    if shouldEscape c mode then (utf8Bytes c).flatMap escapeByte else [c])

/-- The fields of `url.URL` that `buildURL` sets; every other field keeps its zero value. -/
structure URL where
  Scheme : String
  Host : String
  Path : String
  deriving DecidableEq, Repr

/-- Go's `(*URL).EscapedPath` for a URL without `RawPath`. -/
def URL.EscapedPath (u : URL) : String :=
  if u.Path = "*" then "*" else escape u.Path encoding.encodePath

/-- Go's `(*URL).String` for a URL whose `Opaque`, `User`, `RawQuery` and `Fragment` are empty
and whose `OmitHost` and `ForceQuery` are false. -/
def URL.String (u : URL) : String :=
  let buf := if u.Scheme ≠ "" then u.Scheme ++ ":" else ""
  let buf :=
    if u.Scheme ≠ "" ∨ u.Host ≠ "" then
      let buf := if u.Host ≠ "" ∨ u.Path ≠ "" then buf ++ "//" else buf
      if u.Host ≠ "" then buf ++ escape u.Host encoding.encodeHost else buf
    else buf
  let path := u.EscapedPath
  let buf := if path ≠ "" ∧ path.data.head? ≠ some '/' ∧ u.Host ≠ "" then buf ++ "/" else buf
  let buf :=
    if buf = "" ∧ ':' ∈ path.data.takeWhile (fun c => c ≠ '/') then buf ++ "./" else buf
  buf ++ path

/-- A string that `escape` leaves as it is: none of its characters is escaped in the mode. -/
def Unescaped (s : String) (mode : encoding) : Prop :=
  ∀ c ∈ s.data, shouldEscape c mode = false

end url

/-! ## `encoding/json` values, `net/http` requests and responses -/

/-- A member of a blog, `BlogMember` of the client package. -/
structure BlogMember where
  Username : String
  Role : String
  deriving DecidableEq, Repr

namespace json

/-- The JSON values that the client sends: strings and objects, fields in order. -/
inductive Value where
  | string (s : String)
  | object (fields : List (String × Value))
  deriving Repr

/-- The value `json.Marshal` serialises for a `BlogMember`: an object whose field names are
the struct tags `json:"username"` and `json:"role"`. -/
def Marshal (data : BlogMember) : Value :=
  Value.object [("username", Value.string data.Username), ("role", Value.string data.Role)]

end json

namespace http

/-- Go's `http.Header`, a map from canonical header names to values, as an association list
with at most one entry for a name. -/
abbrev Header := List (String × List String)

/-- Go's `Header.Set` for a name already in canonical form (`User-Agent`, `Content-Type`):
the entry of the name is replaced by the single value. -/
def Header.Set (h : Header) (key value : String) : Header :=
  (key, [value]) :: h.filter fun kv => kv.1 ≠ key

/-- The values stored for a header name, `h[key]`. -/
def Header.Values (h : Header) (key : String) : Option (List String) :=
  h.lookup key

/-- Go's `Header.Get` for a name in canonical form: the first value of the name, or the empty
string. -/
def Header.Get (h : Header) (key : String) : String :=
  match h.lookup key with
  | some (v :: _) => v
  | _ => ""

/-- The parts of `http.Request` the client sets: the body is the JSON value whose
serialisation is sent, or `none` for a nil body. -/
structure Request where
  Method : String
  URL : String
  Header : Header
  Body : Option json.Value
  deriving Repr

/-- The parts of `http.Response` that the client and `http.Client` read: `Header` holds the
response headers (`Location` among them), `Body` is what `io.ReadAll(res.Body)` yields and
`ReadErr` the error it yields with it, if any. -/
structure Response where
  StatusCode : Int
  Header : Header
  Body : String
  ReadErr : Option String
  deriving DecidableEq, Repr

/-- Go's `redirectBehavior(reqMethod, resp, ireq)`: the method of the next request, whether
the response is a redirect to follow, and whether the body is sent again.  The requests of
this client are made by `http.NewRequest` with a nil body or a `*bytes.Buffer`, so `GetBody`
is set whenever there is a body and the exception for 307 and 308 without `GetBody` does not
apply. -/
def redirectBehavior (reqMethod : String) (resp : Response) (_ireq : Request) :
    String × Bool × Bool :=
  if resp.StatusCode = 301 ∨ resp.StatusCode = 302 ∨ resp.StatusCode = 303 then
    -- other methods than GET and HEAD are redirected as GET, without body
    (if reqMethod ≠ "GET" ∧ reqMethod ≠ "HEAD" then "GET" else reqMethod, true, false)
  else if resp.StatusCode = 307 ∨ resp.StatusCode = 308 then
    (reqMethod, true, true)
  else ("", false, false)

/-- The response makes `http.Client` send a further request: `redirectBehavior` says so and
the `Location` header is not empty. -/
def followsRedirect (req : Request) (resp : Response) (ireq : Request) : Bool :=
  (redirectBehavior req.Method resp ireq).2.1 && resp.Header.Get "Location" != ""

/-- Go's `urlErrorOp(method)`, the `Op` of the `*url.Error` of a failed request: `Get` for the
empty method, otherwise the method with all but its first byte in lower case when it is
printable ASCII. -/
def urlErrorOp (method : String) : String :=
  if method = "" then "Get"
  else if method.data.all (fun c => ' ' ≤ c ∧ c ≤ '~') then
    match method.data with
    | [] => method
    | c :: t => String.mk (c :: t.map Char.toLower)
  else method

end http

namespace wsse

/-- The signing transport `wsse.Transport` of `github.com/motemen/go-wsse`. -/
structure Transport where
  Username : String
  Password : String
  deriving DecidableEq, Repr

end wsse

/-- The errors the client returns, by origin.  `status` is the error made by
`fmt.Errorf("unexpected status code: %d, body: %s", ...)`; `url` is the `*url.Error` with
which `http.Client` reports a failed request (`Op`, `URL` and the message of the wrapped
error); the others pass on the message of the error that `http.NewRequest`, `io.ReadAll` or
`json.Unmarshal` returned. -/
inductive Error where
  | request (msg : String)
  | url (Op : String) (URL : String) (Err : String)
  | status (code : Int) (body : String)
  | read (msg : String)
  | decode (msg : String)
  deriving DecidableEq, Repr

/-- What the client takes from outside the repository.
* `urlError` is the error with which `http.NewRequest` rejects a raw URL (`none` when it
  accepts it).
* `wsse` is `wsse.Transport.RoundTrip`: it signs the request and sends it over the network.
* `unmarshalMember` and `unmarshalMembers` are `json.Unmarshal` into a `BlogMember` and into
  the `members` field of the list response (a nil and an empty slice both decode to `[]`, a
  JSON `null` element to `none`).
* `resolve` is `req.URL.Parse(loc)`, the URL that a `Location` header denotes relative to the
  URL of the request, or the error of the parse.
* `referer` is `refererForURL`: the `Referer` value for a redirected request, from the URL of
  the last request, the URL of the next one and the `Referer` copied from the first request
  (the empty string for none).
* `copyHeader` tells whether `http.Client` copies the header of that name from the first
  request to a redirected one, given the URLs of the first and of the next request (every
  header but the credentials that are dropped when the redirect leaves the domain).
* `stripPassword` renders the URL of a request for a `*url.Error`, with the password of its
  user information, if it has one, replaced by `***`.
* `quote` is `strconv.Quote`, the `%q` of `fmt`. -/
structure Env where
  urlError : String → Option String
  wsse : wsse.Transport → http.Request → Except String http.Response
  unmarshalMember : String → Except String BlogMember
  unmarshalMembers : String → Except String (List (Option BlogMember))
  resolve : String → String → Except String String
  referer : String → String → String → String
  copyHeader : String → String → String → Bool
  stripPassword : String → String
  quote : String → String

/-- The message of an error, Go's `err.Error()`. -/
def Error.Message (env : Env) : Error → String
  | Error.request msg => msg
  | Error.url op u err => op ++ " " ++ env.quote u ++ ": " ++ err
  | Error.status code body => "unexpected status code: " ++ toString code ++ ", body: " ++ body
  | Error.read msg => msg
  | Error.decode msg => msg

/-- Go's `http.NewRequest(method, url, body)`: it fails when the URL does not parse. -/
def http.NewRequest (env : Env) (method url : String) (body : Option json.Value) :
    Except Error http.Request :=
  match env.urlError url with
  | some err => Except.error (Error.request err)
  | none => Except.ok { Method := method, URL := url, Header := [], Body := body }

/-! ## The transport (`transport.go`) -/

/-- The client's transport: it wraps `wsse.Transport` to set the X-WSSE header and, in
addition, sets the User-Agent header. -/
structure transport where
  Transport : wsse.Transport
  version : String
  deriving DecidableEq, Repr

/-- Source: `newTransport(username, apikey, version)`. -/
def newTransport (username apikey version : String) : transport :=
  { Transport := { Username := username, Password := apikey }, version := version }

/-- The User-Agent value of `RoundTrip`, `fmt.Sprintf` of the format string with the version. -/
def transport.ua (t : transport) : String :=
  "terraform-provider-hatenablog-members/" ++ t.version ++
    " (+https://github.com/hatena/terraform-provider-hatenablog-members)"

/-- The request as `RoundTrip` hands it to the wrapped transport, after
`req.Header.Set("User-Agent", ua)`. -/
def transport.prepare (t : transport) (req : http.Request) : http.Request :=
  { req with Header := req.Header.Set "User-Agent" t.ua }

/-- Source: `(*transport).RoundTrip(req)`. -/
def transport.RoundTrip (env : Env) (t : transport) (req : http.Request) :
    Except String http.Response :=
  env.wsse t.Transport (t.prepare req)

/-! ## The heap of member slices -/

/-- The backing arrays of the `[]*BlogMember` slices allocated so far, by allocation index; an
element is a `*BlogMember`, `none` being the nil pointer. -/
structure Heap where
  arrays : List (List (Option BlogMember))
  deriving DecidableEq, Repr

/-- A `[]*BlogMember` value: the nil slice, or a slice over a whole backing array. -/
abbrev Slice := Option Nat

/-- The elements of a slice. -/
def Heap.elems (h : Heap) : Slice → List (Option BlogMember)
  | none => []
  | some a => h.arrays.getD a []

/-- Go's `append([]*BlogMember{}, xs...)`: a new non-nil slice holding a copy of `xs`. -/
def Heap.appendNew (h : Heap) (xs : List (Option BlogMember)) : Slice × Heap :=
  (some h.arrays.length, { arrays := h.arrays ++ [xs] })

/-- A caller's assignment `s[i] = v` to an element of a slice it holds (no effect on the nil
slice or out of range, where Go panics). -/
def Heap.assign (h : Heap) (s : Slice) (i : Nat) (v : Option BlogMember) : Heap :=
  match s with
  | none => h
  | some a => { arrays := h.arrays.modify (fun arr => arr.set i v) a }

/-! ## The client (`client.go`) -/

/-- Source: `Client`.  `client` is the transport of its `http.Client`; `membersCache` is the
`Members` slice of the cache, nil while the cache is unpopulated. -/
structure Client where
  client : transport
  username : String
  owner : String
  blogHost : String
  hatenablogHost : String
  insecure : Bool
  membersCache : Slice
  deriving DecidableEq, Repr

/-- Source: `NewClient(version, username, apikey, owner, blogHost)`. -/
def NewClient (version username apikey owner blogHost : String) : Client :=
  { client := newTransport username apikey version
    username := username
    owner := owner
    blogHost := blogHost
    hatenablogHost := "blog.hatena.ne.jp"
    insecure := false
    membersCache := none }

/-- Source: `(*Client).SetHatenablogHost(host)`. -/
def Client.SetHatenablogHost (c : Client) (host : String) : Client :=
  { c with hatenablogHost := host }

/-- Source: `(*Client).SetInsecure(insecure)`. -/
def Client.SetInsecure (c : Client) (insecure : Bool) : Client :=
  { c with insecure := insecure }

/-- Source: `(*Client).buildURL(p...)`: the URL
`(http|https)://<hatenablogHost>/<owner>/<blogHost>/api/<p...>`. -/
def Client.buildURL (c : Client) (p : List String) : url.URL :=
  let paths := [c.owner, c.blogHost, "api"] ++ p
  let scheme := if c.insecure then "http" else "https"
  { Scheme := scheme, Host := c.hatenablogHost, Path := path.Join paths }

/-- What a call of an operation leaves behind: its result, the client and the heap after the
call, and the requests it handed to the signing transport, in order. -/
structure Outcome (α : Type) where
  result : Except Error α
  client : Client
  heap : Heap
  sent : List http.Request

/-- One turn of the loop of `(*http.Client).do`: either the call is over, with a response or
an error, or a further request is to be made for the `Location` given. -/
inductive Hop where
  | done (result : Except Error http.Response)
  | redirect (next : http.Request) (loc : String)

/-- One turn of the loop of `(*http.Client).do` for the request `req`, `ireq` being the first
request of the call: the request goes through the transport; an error of the transport comes
back as `*url.Error`; a response that is no redirect, or has no `Location`, is returned;
otherwise the next request is made for the resolved `Location`, with the method that
`redirectBehavior` gives, the headers copied from the first request, a `Referer`, and the body
of the first request when it is to be sent again.  The headers copied are those that the first
request had when the call began: `makeHeadersCopier` clones them before the first round trip,
so without the `User-Agent` that `RoundTrip` sets. -/
def transport.hop (env : Env) (t : transport) (ireq req : http.Request) : Hop :=
  match t.RoundTrip env req with
  | Except.error err =>
    Hop.done (Except.error (Error.url (http.urlErrorOp ireq.Method)
      (env.stripPassword req.URL) err))
  | Except.ok resp =>
    if !(http.redirectBehavior req.Method resp ireq).2.1 then Hop.done (Except.ok resp)
    else
      let loc := resp.Header.Get "Location"
      if loc = "" then Hop.done (Except.ok resp)
      else
        match env.resolve req.URL loc with
        | Except.error err =>
          Hop.done (Except.error (Error.url (http.urlErrorOp ireq.Method)
            (env.stripPassword req.URL)
            ("failed to parse Location header " ++ env.quote loc ++ ": " ++ err)))
        | Except.ok u =>
          let copied : http.Header := ireq.Header.filter fun kv => env.copyHeader kv.1 ireq.URL u
          let ref := env.referer req.URL u (http.Header.Get copied "Referer")
          Hop.redirect
            { Method := (http.redirectBehavior req.Method resp ireq).1
              URL := u
              Header := if ref ≠ "" then http.Header.Set copied "Referer" ref else copied
              Body := if (http.redirectBehavior req.Method resp ireq).2.2 then ireq.Body
                else none }
            loc

/-- The loop of `(*http.Client).do` with the default redirect policy: `left` is the number of
requests that may still follow this one (`defaultCheckRedirect` stops after 10 requests).
Returns the response or error of the call and the requests that went to the wrapped
transport, in order. -/
def transport.doLoop (env : Env) (t : transport) (ireq : http.Request) :
    Nat → http.Request → Except Error http.Response × List http.Request
  | left, req =>
    match t.hop env ireq req, left with
    | Hop.done result, _ => (result, [t.prepare req])
    | Hop.redirect _ loc, 0 =>
      (Except.error (Error.url (http.urlErrorOp ireq.Method) loc "stopped after 10 redirects"),
        [t.prepare req])
    | Hop.redirect next _, left + 1 =>
      ((t.doLoop env ireq left next).1, t.prepare req :: (t.doLoop env ireq left next).2)

/-- Go's `c.client.Do(req)` for the client's `http.Client`, which has the transport `client`
and neither `CheckRedirect`, `Jar` nor `Timeout`: the response or the error of the call, and
the requests that went to the wrapped transport. -/
def Client.Do (env : Env) (c : Client) (req : http.Request) :
    Except Error http.Response × List http.Request :=
  c.client.doLoop env req 9 req

/-- Source: `(*Client).AddMember(username, role)`. -/
def Client.AddMember (env : Env) (c : Client) (h : Heap) (username role : String) :
    Outcome BlogMember :=
  let data : BlogMember := { Username := username, Role := role }
  let body := json.Marshal data
  match http.NewRequest env "POST" (c.buildURL ["members"]).String (some body) with
  | Except.error err => ⟨Except.error err, c, h, []⟩
  | Except.ok req =>
    let req := { req with Header := req.Header.Set "Content-Type" "application/json" }
    match c.Do env req with
    | (Except.error err, sent) => ⟨Except.error err, c, h, sent⟩
    | (Except.ok res, sent) =>
      if ¬(200 ≤ res.StatusCode ∧ res.StatusCode < 300) then
        ⟨Except.error (Error.status res.StatusCode res.Body), c, h, sent⟩
      else
        match res.ReadErr with
        | some err => ⟨Except.error (Error.read err), c, h, sent⟩
        | none =>
          match env.unmarshalMember res.Body with
          | Except.error err => ⟨Except.error (Error.decode err), c, h, sent⟩
          | Except.ok resData =>
            -- the cache of ListMembers is discarded
            ⟨Except.ok resData, { c with membersCache := none }, h, sent⟩

/-- Source: `(*Client).ListMembers()`.  The result is the slice handed to the caller. -/
def Client.ListMembers (env : Env) (c : Client) (h : Heap) : Outcome Slice :=
  match c.membersCache with
  | some cached =>
    -- with a cache, return a copy of it and send nothing
    let (members, h1) := h.appendNew (h.elems (some cached))
    ⟨Except.ok members, c, h1, []⟩
  | none =>
    match http.NewRequest env "GET" (c.buildURL ["members"]).String none with
    | Except.error err => ⟨Except.error err, c, h, []⟩
    | Except.ok req =>
      match c.Do env req with
      | (Except.error err, sent) => ⟨Except.error err, c, h, sent⟩
      | (Except.ok res, sent) =>
        if ¬(200 ≤ res.StatusCode ∧ res.StatusCode < 300) then
          ⟨Except.error (Error.status res.StatusCode res.Body), c, h, sent⟩
        else
          match res.ReadErr with
          | some err => ⟨Except.error (Error.read err), c, h, sent⟩
          | none =>
            match env.unmarshalMembers res.Body with
            | Except.error err => ⟨Except.error (Error.decode err), c, h, sent⟩
            | Except.ok resData =>
              let (members, h1) := h.appendNew resData
              -- `return c.membersCache.Members, nil`: the slice stored in the cache
              ⟨Except.ok members, { c with membersCache := members }, h1, sent⟩

/-- Source: `(*Client).DeleteMember(username)`. -/
def Client.DeleteMember (env : Env) (c : Client) (h : Heap) (username : String) :
    Outcome Unit :=
  match http.NewRequest env "DELETE" (c.buildURL ["members", username]).String none with
  | Except.error err => ⟨Except.error err, c, h, []⟩
  | Except.ok req =>
    match c.Do env req with
    | (Except.error err, sent) => ⟨Except.error err, c, h, sent⟩
    | (Except.ok res, sent) =>
      if ¬(200 ≤ res.StatusCode ∧ res.StatusCode < 300) then
        ⟨Except.error (Error.status res.StatusCode res.Body), c, h, sent⟩
      else
        ⟨Except.ok (), { c with membersCache := none }, h, sent⟩

/-! ## The provider's configuration step (`provider.go`) -/

namespace basetypes

/-- The framework's `types.String`: null, unknown, or a known string. -/
inductive StringValue where
  | null
  | unknown
  | known (value : String)
  deriving DecidableEq, Repr

/-- The framework's `types.Bool`: null, unknown, or a known boolean. -/
inductive BoolValue where
  | null
  | unknown
  | known (value : Bool)
  deriving DecidableEq, Repr

/-- Is the value null. -/
def StringValue.IsNull : StringValue → Bool
  | StringValue.null => true
  | _ => false

/-- Is the value unknown. -/
def StringValue.IsUnknown : StringValue → Bool
  | StringValue.unknown => true
  | _ => false

/-- The known string, or the empty string for a null or unknown value. -/
def StringValue.ValueString : StringValue → String
  | StringValue.known value => value
  | _ => ""

/-- The known boolean, or false for a null or unknown value. -/
def BoolValue.ValueBool : BoolValue → Bool
  | BoolValue.known value => value
  | _ => false

end basetypes

namespace diag

/-- The severity of a diagnostic. -/
inductive Severity where
  | SeverityError
  | SeverityWarning
  deriving DecidableEq, Repr

/-- A diagnostic of the framework. -/
structure Diagnostic where
  Severity : Severity
  Summary : String
  Detail : String
  deriving DecidableEq, Repr

/-- A list of diagnostics. -/
abbrev Diagnostics := List Diagnostic

/-- Does the list hold an error. -/
def Diagnostics.HasError (ds : Diagnostics) : Bool :=
  ds.any fun d => d.Severity = Severity.SeverityError

/-- Append an error diagnostic. -/
def Diagnostics.AddError (ds : Diagnostics) (summary detail : String) : Diagnostics :=
  ds ++ [{ Severity := Severity.SeverityError, Summary := summary, Detail := detail }]

end diag

/-- Source: `blogMemberProvider`. -/
structure blogMemberProvider where
  version : String
  deriving DecidableEq, Repr

/-- Source: `blogMemberProviderModel`. -/
structure blogMemberProviderModel where
  Username : basetypes.StringValue
  Owner : basetypes.StringValue
  Apikey : basetypes.StringValue
  BlogHost : basetypes.StringValue
  HatenablogHost : basetypes.StringValue
  Insecure : basetypes.BoolValue
  deriving DecidableEq, Repr

/-- What `Configure` receives: the diagnostics and the model that `req.Config.Get` yields. -/
structure ConfigureRequest where
  diags : diag.Diagnostics
  config : blogMemberProviderModel
  deriving DecidableEq, Repr

/-- What `Configure` leaves in its response: the diagnostics, and the client of the
`blogMemberProviderData` stored as `DataSourceData` and `ResourceData`, if one was stored. -/
structure ConfigureResponse where
  Diagnostics : diag.Diagnostics
  Client : Option Client
  deriving DecidableEq, Repr

/-- Source: `(*blogMemberProvider).Configure`, on a response that is empty at the start. -/
def blogMemberProvider.Configure (p : blogMemberProvider) (req : ConfigureRequest) :
    ConfigureResponse :=
  let config := req.config
  let diags : diag.Diagnostics := req.diags
  if diags.HasError then ⟨diags, none⟩
  else if config.Username.IsUnknown then
    ⟨diags.AddError "username is required" "cannot use unknown value for username", none⟩
  else
    let username := config.Username.ValueString
    if username = "" then
      ⟨diags.AddError "username is required" "cannot use empty value for username", none⟩
    else if config.Owner.IsUnknown then
      ⟨diags.AddError "owner is required" "cannot use unknown value for owner", none⟩
    else
      let owner := if !config.Owner.IsNull then config.Owner.ValueString else username
      if config.Apikey.IsUnknown then
        ⟨diags.AddError "apikey is required" "cannot use unknown value for apikey", none⟩
      else
        let apikey := config.Apikey.ValueString
        if apikey = "" then
          ⟨diags.AddError "apikey is required" "cannot use empty value for apikey", none⟩
        else if config.BlogHost.IsUnknown then
          ⟨diags.AddError "blog_host is required" "cannot use unknown value for blog_host", none⟩
        else
          let blogHost := config.BlogHost.ValueString
          if blogHost = "" then
            ⟨diags.AddError "blog_host is required" "cannot use empty value for blog_host", none⟩
          else
            let client := NewClient p.version username apikey owner blogHost
            let client :=
              if !config.HatenablogHost.IsNull then
                client.SetHatenablogHost config.HatenablogHost.ValueString
              else client
            let client :=
              if !config.HatenablogHost.IsNull then
                client.SetInsecure config.Insecure.ValueBool
              else client
            ⟨diags, some client⟩

/-! ## Requests of the three operations, and statement helpers -/

/-- The request `AddMember` builds before it goes through the transport. -/
def Client.addRequest (c : Client) (username role : String) : http.Request :=
  { Method := "POST", URL := (c.buildURL ["members"]).String,
    Header := [("Content-Type", ["application/json"])],
    Body := some (json.Value.object
      [("username", json.Value.string username), ("role", json.Value.string role)]) }

/-- The request `ListMembers` builds on a cache miss. -/
def Client.listRequest (c : Client) : http.Request :=
  { Method := "GET", URL := (c.buildURL ["members"]).String, Header := [], Body := none }

/-- The request `DeleteMember` builds. -/
def Client.deleteRequest (c : Client) (username : String) : http.Request :=
  { Method := "DELETE", URL := (c.buildURL ["members", username]).String, Header := [],
    Body := none }

/-- The text `part` occurs in the text `s`. -/
def Contains (s part : String) : Prop :=
  ∃ pre post : String, s = pre ++ part ++ post

/-- An error is the status error of the client. -/
def Error.isStatus : Error → Bool
  | Error.status _ _ => true
  | _ => false

/-! ## Example inputs -/

/-- The client of the package's tests, with the production API host. -/
def exampleClient : Client :=
  NewClient "test" "username" "apikey" "owner" "blog.example.com"

/-- A heap with one backing array, the snapshot of a blog with the single member `bob`. -/
def exampleHeap : Heap :=
  { arrays := [[some { Username := "bob", Role := "admin" }]] }

/-- The client of the tests with a populated cache, the slice over array 0. -/
def cachedClient : Client :=
  { exampleClient with membersCache := some 0 }

/-- The decoding of the member bodies used in the examples. -/
def exampleUnmarshalMember (body : String) : Except String BlogMember :=
  if body = "\x7b\"username\":\"alice\",\"role\":\"editor\"\x7d" then
    Except.ok { Username := "alice", Role := "editor" }
  else Except.error "invalid character"

/-- The decoding of the list bodies used in the examples. -/
def exampleUnmarshalMembers (body : String) : Except String (List (Option BlogMember)) :=
  if body = "\x7b\"members\":[\x7b\"username\":\"alice\",\"role\":\"editor\"\x7d]\x7d" then
    Except.ok [some { Username := "alice", Role := "editor" }]
  else if body = "\x7b\"members\":[]\x7d" then Except.ok []
  else Except.error "invalid character"

/-- An environment that accepts every URL and answers every request with `reply`; a
`Location` is taken as an absolute URL, a redirected request gets the URL of the last request
as `Referer`, and every header is copied. -/
def exampleEnv (reply : Except String http.Response) : Env :=
  { urlError := fun _ => none
    wsse := fun _ _ => reply
    unmarshalMember := exampleUnmarshalMember
    unmarshalMembers := exampleUnmarshalMembers
    resolve := fun _ loc => Except.ok loc
    referer := fun last _ explicit => if explicit ≠ "" then explicit else last
    copyHeader := fun _ _ _ => true
    stripPassword := fun u => u
    quote := fun u => "\"" ++ u ++ "\"" }

/-- An environment whose `http.NewRequest` rejects every URL. -/
def rejectingEnv : Env :=
  { exampleEnv (Except.error "unreachable") with urlError := fun _ => some "invalid URL" }

/-- An environment whose server answers the first request of an operation, which carries no
`Referer`, with `first` and every redirected request with `later`. -/
def redirectingEnv (first later : http.Response) : Env :=
  { exampleEnv (Except.ok later) with
    wsse := fun _ req =>
      if req.Header.Values "Referer" = none then Except.ok first else Except.ok later }

/-- An environment whose `http.NewRequest` rejects the URLs of the host `a b`, which
`URL.String` renders as `a%20b`, as `url.Parse` does. -/
def strictEnv : Env :=
  { exampleEnv (Except.error "unreachable") with
    urlError := fun u =>
      if u = "https://a%20b/owner/blog.example.com/api/members" then
        some ("parse \"https://a%20b/owner/blog.example.com/api/members\": " ++
          "invalid URL escape \"%20\"")
      else none }

/-- The response with status 404 and body `not found`. -/
def notFound : http.Response :=
  { StatusCode := 404, Header := [], Body := "not found", ReadErr := none }

/-- The response with status 201 and the member `alice` as body. -/
def createdAlice : http.Response :=
  { StatusCode := 201, Header := [], Body := "\x7b\"username\":\"alice\",\"role\":\"editor\"\x7d",
    ReadErr := none }

/-- The response with status 200 and a list holding the member `alice` as body. -/
def listAlice : http.Response :=
  { StatusCode := 200, Header := [],
    Body := "\x7b\"members\":[\x7b\"username\":\"alice\",\"role\":\"editor\"\x7d]\x7d",
    ReadErr := none }

/-- The response with status 200 and the empty member list as body. -/
def listEmpty : http.Response :=
  { StatusCode := 200, Header := [], Body := "\x7b\"members\":[]\x7d", ReadErr := none }

/-- The response with status 200 and an empty body. -/
def okEmpty : http.Response :=
  { StatusCode := 200, Header := [], Body := "", ReadErr := none }

/-- The response with status 302, the body `moved` and a `Location`. -/
def movedElsewhere : http.Response :=
  { StatusCode := 302, Header := [("Location", ["https://blog.hatena.ne.jp/elsewhere"])],
    Body := "moved", ReadErr := none }

/-- The response with status 307, an empty body and a `Location`. -/
def temporaryRedirect : http.Response :=
  { StatusCode := 307, Header := [("Location", ["https://blog.hatena.ne.jp/elsewhere"])],
    Body := "", ReadErr := none }

/-- The client of the tests with the owner `/owner`, which starts with a slash. -/
def rootedOwnerClient : Client :=
  NewClient "test" "username" "apikey" "/owner" "blog.example.com"

/-- The client of the tests with an empty API host. -/
def noHostClient : Client :=
  exampleClient.SetHatenablogHost ""

/-- The client of the tests with the API host `a b`. -/
def spaceHostClient : Client :=
  exampleClient.SetHatenablogHost "a b"

/-- A member a caller writes into a slice it received. -/
def mallory : BlogMember :=
  { Username := "mallory", Role := "admin" }

/-- A provider configuration whose `owner` is set to the empty string. -/
def emptyOwnerConfig : blogMemberProviderModel :=
  { Username := basetypes.StringValue.known "username"
    Owner := basetypes.StringValue.known ""
    Apikey := basetypes.StringValue.known "apikey"
    BlogHost := basetypes.StringValue.known "blog.example.com"
    HatenablogHost := basetypes.StringValue.null
    Insecure := basetypes.BoolValue.null }

/-- A provider configuration that sets `insecure` but leaves `hatenablog_host` unset. -/
def insecureOnlyConfig : blogMemberProviderModel :=
  { Username := basetypes.StringValue.known "username"
    Owner := basetypes.StringValue.null
    Apikey := basetypes.StringValue.known "apikey"
    BlogHost := basetypes.StringValue.known "blog.example.com"
    HatenablogHost := basetypes.StringValue.null
    Insecure := basetypes.BoolValue.known true }

/-- A provider configuration that sets both `hatenablog_host` and `insecure`. -/
def localHostConfig : blogMemberProviderModel :=
  { Username := basetypes.StringValue.known "username"
    Owner := basetypes.StringValue.null
    Apikey := basetypes.StringValue.known "apikey"
    BlogHost := basetypes.StringValue.known "blog.example.com"
    HatenablogHost := basetypes.StringValue.known "localhost:8080"
    Insecure := basetypes.BoolValue.known true }

/-- A provider configuration that sets `hatenablog_host` and leaves `insecure` unset. -/
def hostOnlyConfig : blogMemberProviderModel :=
  { Username := basetypes.StringValue.known "username"
    Owner := basetypes.StringValue.null
    Apikey := basetypes.StringValue.known "apikey"
    BlogHost := basetypes.StringValue.known "blog.example.com"
    HatenablogHost := basetypes.StringValue.known "localhost:8080"
    Insecure := basetypes.BoolValue.null }

/-! ## Theorems -/

/-! ### `path.Clean` on a path extended by an element -/

namespace path

/-- At the end of the path the loop returns its state. -/
theorem cleanLoop_nil (rooted b : Bool) (out : List Char) (dd : Nat) :
    cleanLoop rooted b [] out dd = (out, dd) := by
  cases b <;> simp [cleanLoop]

/-- At a slash the loop moves on in its main mode, in whichever mode it met the slash. -/
theorem cleanLoop_slash (rooted b : Bool) (rest out : List Char) (dd : Nat) :
    cleanLoop rooted b ('/' :: rest) out dd = cleanLoop rooted false rest out dd := by
  cases b
  · cases rest <;> simp [cleanLoop]
  · simp [cleanLoop]

/-- A segment: no slash. -/
theorem cleanLoop_copy (rooted : Bool) (seg : List Char) (hs : '/' ∉ seg) (out : List Char)
    (dd : Nat) :
    cleanLoop rooted true seg out dd = (seg.reverse ++ out, dd) := by
  induction seg generalizing out with
  | nil => simp [cleanLoop]
  | cons c t ih =>
    have hc : c ≠ '/' := fun h => hs (by simp [h])
    have ht : '/' ∉ t := fun h => hs (by simp [h])
    simp [cleanLoop, hc, ih ht]

/-- The loop over a path followed by a slash and more: it leaves the first part in the state
in which it would end on that part alone, and goes on from there after the slash. -/
theorem cleanLoop_append (rooted : Bool) (n : Nat) : ∀ (pre : List Char), pre.length ≤ n →
    ∀ (b : Bool) (rest out : List Char) (dd : Nat),
    cleanLoop rooted b (pre ++ '/' :: rest) out dd =
      cleanLoop rooted false rest (cleanLoop rooted b pre out dd).1
        (cleanLoop rooted b pre out dd).2 := by
  induction n with
  | zero =>
    intro pre hpre b rest out dd
    have : pre = [] := List.length_eq_zero.mp (Nat.le_zero.mp hpre)
    subst this
    simp [cleanLoop_nil, cleanLoop_slash]
  | succ n ih =>
    intro pre hpre b rest out dd
    match pre, hpre, b with
    | [], _, b => simp [cleanLoop_nil, cleanLoop_slash]
    | c :: t, hpre, true =>
      have ht : t.length ≤ n := by simpa using hpre
      by_cases hc : c = '/'
      · simp [cleanLoop, hc, ih t ht]
      · simp [cleanLoop, hc, ih t ht]
    | [c], _, false =>
      by_cases hc : c = '/'
      · subst hc; simp [cleanLoop, cleanLoop_slash, cleanLoop_nil]
      · by_cases hd : c = '.'
        · subst hd; simp [cleanLoop, cleanLoop_slash, cleanLoop_nil]
        · simp [cleanLoop, hc, hd, cleanLoop_slash, cleanLoop_nil]
    | c :: d :: u, hpre, false =>
      have ht : (d :: u).length ≤ n := by simpa using hpre
      have hu : u.length ≤ n := by simp at hpre; omega
      have hcond : ((u ++ '/' :: rest) = [] ∨ (u ++ '/' :: rest).head? = some '/') ↔
          (u = [] ∨ u.head? = some '/') := by
        cases u <;> simp
      by_cases hc : c = '/'
      · have := ih (d :: u) ht false rest out dd
        simp only [List.cons_append] at this ⊢
        rw [cleanLoop, if_pos hc, this]
        conv_rhs => rw [cleanLoop, if_pos hc]
      · by_cases h1 : c = '.' ∧ d = '/'
        · have := ih (d :: u) ht false rest out dd
          simp only [List.cons_append] at this ⊢
          rw [cleanLoop, if_neg hc, if_pos h1, this]
          conv_rhs => rw [cleanLoop, if_neg hc, if_pos h1]
        · by_cases h2 : c = '.' ∧ d = '.' ∧ (u = [] ∨ u.head? = some '/')
          · have h2' : c = '.' ∧ d = '.' ∧
                ((u ++ '/' :: rest) = [] ∨ (u ++ '/' :: rest).head? = some '/') :=
              ⟨h2.1, h2.2.1, hcond.mpr h2.2.2⟩
            have := ih u hu false rest (dotdotElem rooted out dd).1 (dotdotElem rooted out dd).2
            simp only [List.cons_append]
            rw [cleanLoop, if_neg hc, if_neg h1, if_pos h2', this]
            conv_rhs => rw [cleanLoop, if_neg hc, if_neg h1, if_pos h2]
          · have h2' : ¬ (c = '.' ∧ d = '.' ∧
                ((u ++ '/' :: rest) = [] ∨ (u ++ '/' :: rest).head? = some '/')) :=
              fun h => h2 ⟨h.1, h.2.1, hcond.mp h.2.2⟩
            have := ih (d :: u) ht true rest (c :: addSlash rooted out) dd
            simp only [List.cons_append] at this ⊢
            rw [cleanLoop, if_neg hc, if_neg h1, if_neg h2', this]
            conv_rhs => rw [cleanLoop, if_neg hc, if_neg h1, if_neg h2]


/-- A real path element at the start of an element. -/
theorem cleanLoop_segment (rooted : Bool) (seg : List Char) (hne : seg ≠ [])
    (hs : '/' ∉ seg) (hdot : seg ≠ ['.']) (hdotdot : seg ≠ ['.', '.'])
    (out : List Char) (dd : Nat) :
    cleanLoop rooted false seg out dd = (seg.reverse ++ addSlash rooted out, dd) := by
  match seg, hne, hs, hdot, hdotdot with
  | [c], _, hs, hdot, _ =>
    have hc : c ≠ '/' := fun h => hs (by simp [h])
    have hd : c ≠ '.' := fun h => hdot (by simp [h])
    simp [cleanLoop, hc, hd]
  | c :: d :: u, _, hs, _, hdotdot =>
    have hc : c ≠ '/' := fun h => hs (by simp [h])
    have hd : d ≠ '/' := fun h => hs (by simp [h])
    have hu : '/' ∉ d :: u := fun h => hs (List.mem_cons_of_mem _ h)
    have h1 : ¬ (c = '.' ∧ d = '/') := fun h => hd h.2
    have h2 : ¬ (c = '.' ∧ d = '.' ∧ (u = [] ∨ u.head? = some '/')) := by
      rintro ⟨h3, h4, h5 | h5⟩
      · exact hdotdot (by rw [h3, h4, h5])
      · cases u with
        | nil => simp at h5
        | cons e v =>
          simp only [List.head?_cons, Option.some.injEq] at h5
          exact hs (by simp [h5])
    rw [cleanLoop, if_neg hc, if_neg h1, if_neg h2, cleanLoop_copy rooted (d :: u) hu]
    simp

/-- Cleaning a non-empty path followed by a slash and a real element ends with the element
copied behind the buffer of the path, after the separating slash that `addSlash` decides. -/
theorem cleanOut_append_segment (p seg : String) (hp : p ≠ "") (hseg : IsSegment seg) :
    cleanOut (p ++ "/" ++ seg) =
      (seg.data.reverse ++ addSlash (p.data.head? = some '/') (cleanOut p).1, (cleanOut p).2) := by
  obtain ⟨h1, h2, h3, h4⟩ := hseg
  have hpd : p.data ≠ [] := fun h => hp (String.ext h)
  obtain ⟨c, t, hct⟩ := List.exists_cons_of_ne_nil hpd
  have hdata : (p ++ "/" ++ seg).data = p.data ++ '/' :: seg.data := by
    simp [String.data_append]
  have hsd1 : seg.data ≠ [] := fun h => h1 (String.ext h)
  have hsd3 : seg.data ≠ ['.'] := fun h => h3 (String.ext h)
  have hsd4 : seg.data ≠ ['.', '.'] := fun h => h4 (String.ext h)
  unfold cleanOut
  rw [hdata, hct]
  by_cases hr : c = '/'
  · subst hr
    simp only [List.cons_append, List.head?_cons, decide_True, if_true, List.tail_cons]
    rw [cleanLoop_append true t.length t le_rfl, cleanLoop_segment true _ hsd1 h2 hsd3 hsd4]
  · have hr' : ¬ (some c = some '/') := fun h => hr (Option.some.inj h)
    simp only [List.cons_append, List.head?_cons, hr', decide_False, if_false, Bool.false_eq_true]
    have := cleanLoop_append false (c :: t).length (c :: t) le_rfl false seg.data [] 0
    simp only [List.cons_append] at this
    rw [this, cleanLoop_segment false _ hsd1 h2 hsd3 hsd4]


/-- A buffer of two bytes or more gets the separating slash, rooted or not. -/
theorem addSlash_of_two_le (rooted : Bool) (out : List Char) (h : 2 ≤ out.length) :
    addSlash rooted out = '/' :: out := by
  unfold addSlash
  have h1 : out.length ≠ 1 := by omega
  have h0 : out.length ≠ 0 := by omega
  cases rooted <;> simp [h1, h0]

/-- When the buffer of a non-empty path has two bytes or more, `Clean` of the path followed
by a slash and a real element is `Clean` of the path followed by the slash and the element. -/
theorem Clean_append_segment (p seg : String) (hp : p ≠ "") (hseg : IsSegment seg)
    (hlen : 2 ≤ (cleanOut p).1.length) :
    Clean (p ++ "/" ++ seg) = Clean p ++ "/" ++ seg ∧
      2 ≤ (cleanOut (p ++ "/" ++ seg)).1.length := by
  have hout := cleanOut_append_segment p seg hp hseg
  rw [addSlash_of_two_le _ _ hlen] at hout
  have hne : p ++ "/" ++ seg ≠ "" := by
    intro h
    have := congrArg String.data h
    simp [String.data_append] at this
  have hl0 : (cleanOut p).1.length ≠ 0 := by omega
  refine ⟨?_, ?_⟩
  · unfold Clean
    rw [if_neg hne, if_neg hp]
    simp only [hout, if_neg hl0]
    rw [if_neg (by simp)]
    apply String.ext
    simp [String.data_append]
  · rw [hout]
    simp
    omega

/-- With a non-empty buffer, `Join` appends a slash and the element, empty or not. -/
theorem joinBuf_nonempty (buf e : String) (es : List String) (hb : buf ≠ "") :
    joinBuf buf (e :: es) = joinBuf (buf ++ "/" ++ e) es := by
  have hlen : 0 < buf.length := by
    rcases buf with ⟨l⟩
    cases l with
    | nil => exact absurd rfl hb
    | cons c t => simp [String.length]
  simp [joinBuf, hlen]

/-- With an empty buffer, `Join` skips an empty element and starts with a non-empty one. -/
theorem joinBuf_empty (e : String) (es : List String) :
    joinBuf "" (e :: es) = if e = "" then joinBuf "" es else joinBuf e es := by
  by_cases he : e = ""
  · simp [joinBuf, he]
  · simp [joinBuf, he]

/-- A string followed by a non-empty string is not empty. -/
theorem append_ne_empty_right (a b : String) (hb : b ≠ "") : a ++ b ≠ "" := by
  intro h
  have := congrArg String.data h
  simp [String.data_append] at this
  exact hb (String.ext this.2)

/-- The element `api` is a single real path element. -/
theorem isSegment_api : IsSegment "api" := ⟨by decide, by decide, by decide, by decide⟩
/-- The element `members` is a single real path element. -/
theorem isSegment_members : IsSegment "members" := ⟨by decide, by decide, by decide, by decide⟩

/-- A non-empty string followed by a string is not empty. -/
theorem append_ne_empty_left (a b : String) (ha : a ≠ "") : a ++ b ≠ "" := by
  intro h
  have := congrArg String.data h
  simp [String.data_append] at this
  exact ha (String.ext this.1)

/-- Without elements left the buffer of `Join` is final. -/
theorem joinBuf_nil (buf : String) : joinBuf buf [] = buf := rfl

/-- The buffer of owner, blog host and `api`. -/
theorem joinBuf_base (o b : String) :
    joinBuf "" [o, b, "api"] ≠ "" ∧ 2 ≤ (cleanOut (joinBuf "" [o, b, "api"])).1.length := by
  have key : ∀ y : String, y ≠ "" → y ++ "/" ++ "api" ≠ "" ∧
      2 ≤ (cleanOut (y ++ "/" ++ "api")).1.length := by
    intro y hy
    refine ⟨append_ne_empty_right _ _ (by decide), ?_⟩
    rw [cleanOut_append_segment y "api" hy isSegment_api]
    simp
  by_cases ho : o = ""
  · by_cases hb : b = ""
    · subst ho hb
      refine ⟨by decide, by decide⟩
    · subst ho
      rw [joinBuf_empty, if_pos rfl, joinBuf_empty, if_neg hb, joinBuf_nonempty _ _ _ hb,
        joinBuf_nil]
      exact key b hb
  · have hob : o ++ "/" ++ b ≠ "" :=
      append_ne_empty_left _ _ (append_ne_empty_left _ _ ho)
    rw [joinBuf_empty, if_neg ho, joinBuf_nonempty _ _ _ ho, joinBuf_nonempty _ _ _ hob,
      joinBuf_nil]
    exact key _ hob

/-- The buffer of `Join` grows by a slash and the element once it is not empty. -/
theorem joinBuf_append (buf : String) (es : List String) (e : String)
    (h : joinBuf buf es ≠ "") :
    joinBuf buf (es ++ [e]) = joinBuf buf es ++ "/" ++ e := by
  induction es generalizing buf with
  | nil =>
    rw [joinBuf_nil] at h
    rw [List.nil_append, joinBuf_nonempty _ _ _ h, joinBuf_nil, joinBuf_nil]
  | cons x xs ih =>
    by_cases hb : buf = ""
    · subst hb
      by_cases hx : x = ""
      · rw [joinBuf_empty, if_pos hx] at h
        rw [List.cons_append, joinBuf_empty, if_pos hx, joinBuf_empty, if_pos hx]
        exact ih _ h
      · rw [joinBuf_empty, if_neg hx] at h
        rw [List.cons_append, joinBuf_empty, if_neg hx, joinBuf_empty, if_neg hx]
        exact ih _ h
    · rw [joinBuf_nonempty _ _ _ hb] at h
      rw [List.cons_append, joinBuf_nonempty _ _ _ hb, joinBuf_nonempty _ _ _ hb]
      exact ih _ h

/-- The join of owner, blog host, `api`, `members` and a real element is the join of owner,
blog host and `api` followed by `/members/` and the element. -/
theorem Join_members_segment (o b u : String) (hu : IsSegment u) :
    Join [o, b, "api", "members", u] = Join [o, b, "api"] ++ "/members/" ++ u := by
  obtain ⟨hne, hlen⟩ := joinBuf_base o b
  have h4 : joinBuf "" [o, b, "api", "members"] = joinBuf "" [o, b, "api"] ++ "/" ++ "members" :=
    joinBuf_append "" [o, b, "api"] "members" hne
  have h4ne : joinBuf "" [o, b, "api", "members"] ≠ "" := by
    rw [h4]; exact append_ne_empty_right _ _ (by decide)
  have h5 : joinBuf "" [o, b, "api", "members", u]
      = joinBuf "" [o, b, "api"] ++ "/" ++ "members" ++ "/" ++ u := by
    rw [← h4]
    exact joinBuf_append "" [o, b, "api", "members"] u h4ne
  obtain ⟨hc4, hl4⟩ := Clean_append_segment _ "members" hne isSegment_members hlen
  obtain ⟨hc5, _⟩ := Clean_append_segment _ u (append_ne_empty_right _ _ (by decide)) hu hl4
  have hs3 : ([o, b, "api"].map String.length).sum ≠ 0 := by
    simp only [List.map, List.sum_cons, List.sum_nil]
    have : "api".length = 3 := by decide
    omega
  have hs5 : ([o, b, "api", "members", u].map String.length).sum ≠ 0 := by
    simp only [List.map, List.sum_cons, List.sum_nil]
    have : "api".length = 3 := by decide
    omega
  unfold Join
  rw [if_neg hs3, if_neg hs5, h5, hc5, hc4]
  apply String.ext
  simp [String.data_append]


/-- The loop of `Clean` on a single real element leaves that element in the buffer. -/
theorem cleanOut_segment (seg : String) (hseg : IsSegment seg) :
    cleanOut seg = (seg.data.reverse, 0) := by
  obtain ⟨h1, h2, h3, h4⟩ := hseg
  have hsd1 : seg.data ≠ [] := fun h => h1 (String.ext h)
  have hsd3 : seg.data ≠ ['.'] := fun h => h3 (String.ext h)
  have hsd4 : seg.data ≠ ['.', '.'] := fun h => h4 (String.ext h)
  obtain ⟨c, t, hct⟩ := List.exists_cons_of_ne_nil hsd1
  have hc : c ≠ '/' := fun h => h2 (by rw [hct, h]; exact List.mem_cons_self _ _)
  have hr' : ¬ (some c = some '/') := fun h => hc (Option.some.inj h)
  unfold cleanOut
  have hhead : seg.data.head? = some c := by rw [hct]; rfl
  simp only [hhead, hr', decide_False, if_false, Bool.false_eq_true]
  rw [cleanLoop_segment false _ hsd1 h2 hsd3 hsd4]
  simp [addSlash]

/-- The loop of `String.intercalate` on a list extended by one string. -/
theorem intercalate_go_append (acc s e : String) (xs : List String) :
    String.intercalate.go acc s (xs ++ [e]) = String.intercalate.go acc s xs ++ s ++ e := by
  induction xs generalizing acc with
  | nil => simp [String.intercalate.go]
  | cons x xs ih => simp [String.intercalate.go, ih]

/-- Intercalating a non-empty list extended by one string. -/
theorem intercalate_append (s e : String) (xs : List String) (hxs : xs ≠ []) :
    s.intercalate (xs ++ [e]) = s.intercalate xs ++ s ++ e := by
  cases xs with
  | nil => exact absurd rfl hxs
  | cons x xs => simp [String.intercalate, intercalate_go_append]

/-- The join of path elements that are all real is the elements separated by slashes. -/
theorem Join_segments (segs : List String) (hne : segs ≠ [])
    (hall : ∀ s ∈ segs, IsSegment s) :
    Join segs = "/".intercalate segs := by
  have key : ∀ segs : List String, segs ≠ [] → (∀ s ∈ segs, IsSegment s) →
      joinBuf "" segs ≠ "" ∧ Clean (joinBuf "" segs) = "/".intercalate segs ∧
      (cleanOut (joinBuf "" segs)).1.length ≠ 0 ∧
      (joinBuf "" segs).data.head? ≠ some '/' := by
    intro segs
    induction segs using List.reverseRecOn with
    | nil => intro h; exact absurd rfl h
    | append_singleton xs e ih =>
      intro _ hall
      have he : IsSegment e := hall e (by simp)
      by_cases hxs : xs = []
      · subst hxs
        have hb : joinBuf "" ([] ++ [e]) = e := by
          rw [List.nil_append, joinBuf_empty, if_neg he.1, joinBuf_nil]
        rw [hb]
        refine ⟨he.1, ?_, ?_, ?_⟩
        · unfold Clean
          rw [if_neg he.1, cleanOut_segment e he]
          have : e.data.reverse.length ≠ 0 := by
            simp only [List.length_reverse]
            exact fun h => he.1 (String.ext (List.length_eq_zero.mp h))
          simp only [if_neg this, List.reverse_reverse]
          simp [String.intercalate, String.intercalate.go]
        · rw [cleanOut_segment e he]
          simp only [List.length_reverse]
          exact fun h => he.1 (String.ext (List.length_eq_zero.mp h))
        · intro h
          cases hd : e.data with
          | nil => rw [hd] at h; simp at h
          | cons c t =>
            rw [hd] at h
            simp only [List.head?_cons, Option.some.injEq] at h
            exact he.2.1 (by rw [hd, h]; exact List.mem_cons_self _ _)
      · obtain ⟨hb, hc, hl, hh⟩ := ih hxs (fun s hs => hall s (by simp [hs]))
        have hbuf := joinBuf_append "" xs e hb
        have hout := cleanOut_append_segment (joinBuf "" xs) e hb he
        have hroot : decide ((joinBuf "" xs).data.head? = some '/') = false := by
          simp [hh]
        have hsl : addSlash false (cleanOut (joinBuf "" xs)).1
            = '/' :: (cleanOut (joinBuf "" xs)).1 := by
          simp [addSlash, hl]
        rw [hroot, hsl] at hout
        rw [hbuf]
        have hne2 : joinBuf "" xs ++ "/" ++ e ≠ "" := append_ne_empty_right _ _ he.1
        refine ⟨hne2, ?_, ?_, ?_⟩
        · rw [intercalate_append _ _ _ hxs, ← hc]
          unfold Clean
          rw [if_neg hne2, if_neg hb]
          simp only [hout, if_neg hl]
          rw [if_neg (by simp)]
          apply String.ext
          simp [String.data_append]
        · rw [hout]; simp
        · intro h
          apply hh
          have hd : (joinBuf "" xs).data ≠ [] := fun h0 => hb (String.ext h0)
          obtain ⟨c, t, hct⟩ := List.exists_cons_of_ne_nil hd
          simp only [String.data_append, hct, List.cons_append, List.head?_cons] at h
          rw [hct]; exact h
  obtain ⟨hb, hc, _, _⟩ := key segs hne hall
  have hs : (segs.map String.length).sum ≠ 0 := by
    obtain ⟨x, xs, rfl⟩ := List.exists_cons_of_ne_nil hne
    have hx : IsSegment x := hall x (List.mem_cons_self _ _)
    have : x.length ≠ 0 := by
      intro h
      exact hx.1 (String.ext (List.length_eq_zero.mp h))
    simp only [List.map, List.sum_cons]
    omega
  unfold Join
  rw [if_neg hs, hc]

end path

/-! ### `path.Join` meets the standard path-join -/

namespace path

/-- A path has at least one element. -/
theorem components_ne_nil (p : List Char) : components p ≠ [] := by
  cases p with
  | nil => simp [components]
  | cons c t =>
    unfold components
    by_cases hc : c = '/'
    · simp [hc]
    · rw [if_neg hc]
      cases components t <;> simp

/-- A leading slash starts a new element after an empty one. -/
theorem components_cons_slash (t : List Char) : components ('/' :: t) = [] :: components t := by
  simp [components]

/-- A character other than the slash goes to the first element. -/
theorem components_cons_other (c : Char) (t : List Char) (hc : c ≠ '/') :
    ∃ x xs, components t = x :: xs ∧ components (c :: t) = (c :: x) :: xs := by
  obtain ⟨x, xs, hx⟩ := List.exists_cons_of_ne_nil (components_ne_nil t)
  refine ⟨x, xs, hx, ?_⟩
  rw [components, if_neg hc, hx]

/-- The elements of a path followed by a slash and more. -/
theorem components_append (a b : List Char) :
    components (a ++ '/' :: b) = components a ++ components b := by
  induction a with
  | nil => simp [components]
  | cons c t ih =>
    by_cases hc : c = '/'
    · subst hc
      rw [List.cons_append, components_cons_slash, components_cons_slash, ih, List.cons_append]
    · obtain ⟨x, xs, hx, hcx⟩ := components_cons_other c t hc
      obtain ⟨y, ys, hy, hcy⟩ := components_cons_other c (t ++ '/' :: b) hc
      rw [List.cons_append, hcy, hcx]
      rw [ih, hx, List.cons_append] at hy
      cases hy
      rfl

/-- A path without slash is its only element. -/
theorem components_of_no_slash (e : List Char) (he : '/' ∉ e) : components e = [e] := by
  induction e with
  | nil => rfl
  | cons c t ih =>
    have hc : c ≠ '/' := fun h => he (by simp [h])
    have ht : '/' ∉ t := fun h => he (List.mem_cons_of_mem _ h)
    obtain ⟨x, xs, hx, hcx⟩ := components_cons_other c t hc
    rw [hcx]
    rw [ih ht] at hx
    cases hx
    rfl

/-- No element of a path holds a slash. -/
theorem components_no_slash (p : List Char) : ∀ e ∈ components p, '/' ∉ e := by
  induction p with
  | nil => intro e he; simp [components] at he; simp [he]
  | cons c t ih =>
    intro e he
    by_cases hc : c = '/'
    · subst hc
      rw [components_cons_slash] at he
      rcases List.mem_cons.mp he with h | h
      · simp [h]
      · exact ih e h
    · obtain ⟨x, xs, hx, hcx⟩ := components_cons_other c t hc
      rw [hcx] at he
      rcases List.mem_cons.mp he with h | h
      · rw [h]
        intro hm
        rcases List.mem_cons.mp hm with h1 | h1
        · exact hc h1.symm
        · exact ih x (by rw [hx]; exact List.mem_cons_self _ _) h1
      · exact ih e (by rw [hx]; exact List.mem_cons_of_mem _ h)

/-- A path either has no slash or starts with an element followed by a slash. -/
theorem split_first_slash (p : List Char) :
    '/' ∉ p ∨ ∃ e rest, p = e ++ '/' :: rest ∧ '/' ∉ e := by
  induction p with
  | nil => left; simp
  | cons c t ih =>
    by_cases hc : c = '/'
    · right; exact ⟨[], t, by simp [hc], by simp⟩
    · rcases ih with h | ⟨e, rest, h1, h2⟩
      · left
        intro hm
        rcases List.mem_cons.mp hm with h3 | h3
        · exact hc h3.symm
        · exact h h3
      · right
        refine ⟨c :: e, rest, by simp [h1], ?_⟩
        intro hm
        rcases List.mem_cons.mp hm with h3 | h3
        · exact hc h3.symm
        · exact h2 h3

/-- The loop of `Clean` over a path is the loop over its elements, one after the other. -/
theorem cleanLoop_components (rooted : Bool) (n : Nat) : ∀ (p : List Char), p.length ≤ n →
    ∀ (out : List Char) (dd : Nat),
    cleanLoop rooted false p out dd =
      (components p).foldl (fun st e => cleanLoop rooted false e st.1 st.2) (out, dd) := by
  induction n with
  | zero =>
    intro p hp out dd
    have : p = [] := List.length_eq_zero.mp (Nat.le_zero.mp hp)
    subst this
    simp [components, cleanLoop_nil]
  | succ n ih =>
    intro p hp out dd
    rcases split_first_slash p with h | ⟨e, rest, h1, h2⟩
    · rw [components_of_no_slash p h]
      rfl
    · subst h1
      have hr : rest.length ≤ n := by
        simp at hp
        omega
      rw [cleanLoop_append rooted e.length e le_rfl, components_append,
        components_of_no_slash e h2, ih rest hr]
      rfl

/-- Backtracking over an element that follows a slash removes the element and the slash. -/
theorem backtrack_slash (dd : Nat) (r Y : List Char) (hr : '/' ∉ r) (hY : dd ≤ Y.length) :
    backtrack dd (r ++ '/' :: Y) = Y := by
  induction r with
  | nil => simp [backtrack]
  | cons c t ih =>
    have hc : c ≠ '/' := fun h => hr (by simp [h])
    have ht : '/' ∉ t := fun h => hr (List.mem_cons_of_mem _ h)
    have hlen : dd < (t ++ '/' :: Y).length := by simp; omega
    rw [List.cons_append, backtrack, if_pos ⟨hlen, hc⟩]
    exact ih ht

/-- Backtracking over an element that starts at `dotdot` removes the element and stops there. -/
theorem backtrack_stop (dd : Nat) (r X : List Char) (hr : '/' ∉ r) (hne : r ≠ [])
    (hX : X.length = dd) : backtrack dd (r ++ X) = X := by
  induction r with
  | nil => exact absurd rfl hne
  | cons c t ih =>
    have hc : c ≠ '/' := fun h => hr (by simp [h])
    have ht : '/' ∉ t := fun h => hr (List.mem_cons_of_mem _ h)
    by_cases htn : t = []
    · subst htn
      have : ¬ (dd < X.length ∧ c ≠ '/') := by omega
      show backtrack dd (c :: X) = X
      rw [backtrack, if_neg this]
    · have hlen : dd < (t ++ X).length := by
        have : 0 < t.length := List.length_pos.mpr htn
        simp; omega
      rw [List.cons_append, backtrack, if_pos ⟨hlen, hc⟩]
      exact ih ht htn

/-- The buffer of the elements kept, unfolded at the last element. -/
theorem bufOf_cons (rooted : Bool) (e : List Char) (before : List (List Char)) :
    bufOf rooted (e :: before) =
      e.reverse ++ (if before = [] then (if rooted then ['/'] else [])
        else '/' :: bufOf rooted before) := rfl

/-- The buffer that holds no element is the leading slash of a rooted path, or empty. -/
theorem bufOf_nil (rooted : Bool) : bufOf rooted [] = if rooted then ['/'] else [] := rfl

/-- The buffer grows with the elements kept. -/
theorem bufOf_length_le (rooted : Bool) (xs dots : List (List Char)) :
    (bufOf rooted dots).length ≤ (bufOf rooted (xs ++ dots)).length := by
  induction xs with
  | nil => simp
  | cons x t ih =>
    rw [List.cons_append, bufOf_cons]
    by_cases h : t ++ dots = []
    · have hd : dots = [] := (List.append_eq_nil.mp h).2
      rw [if_pos h, hd, bufOf_nil]
      simp
    · rw [if_neg h]
      simp
      omega

/-- The buffer grows by an element and at most one slash. -/
theorem bufOf_length_cons (rooted : Bool) (x : List Char) (xs : List (List Char)) :
    (bufOf rooted (x :: xs)).length =
      x.length + (if xs = [] then (if rooted then 1 else 0)
        else 1 + (bufOf rooted xs).length) := by
  rw [bufOf_cons]
  by_cases h : xs = []
  · rw [if_pos h, if_pos h]
    cases rooted <;> simp
  · rw [if_neg h, if_neg h]
    simp
    omega

/-- The buffer that holds a non-empty element is longer than the leading slash. -/
theorem bufOf_length_pos (rooted : Bool) (x : List Char) (xs : List (List Char))
    (hx : x ≠ []) : (if rooted then 2 else 1) ≤ (bufOf rooted (x :: xs)).length := by
  have h0 : 0 < x.length := List.length_pos.mpr hx
  rw [bufOf_length_cons]
  by_cases h : xs = []
  · rw [if_pos h]
    cases rooted <;> simp <;> omega
  · rw [if_neg h]
    cases rooted <;> simp <;> omega

/-- The separating slash before a real element, on the buffer of the elements kept. -/
theorem addSlash_bufOf (rooted : Bool) (kept : List (List Char)) (hk : ∀ e ∈ kept, e ≠ []) :
    addSlash rooted (bufOf rooted kept) =
      if kept = [] then (if rooted then ['/'] else []) else '/' :: bufOf rooted kept := by
  cases kept with
  | nil => cases rooted <;> simp [addSlash, bufOf]
  | cons x xs =>
    have hx := bufOf_length_pos rooted x xs (hk x (List.mem_cons_self _ _))
    rw [if_neg (by simp)]
    unfold addSlash
    cases rooted
    · have h1 : (bufOf false (x :: xs)).length ≠ 0 := by
        simp only [Bool.false_eq_true, if_false] at hx
        omega
      simp [h1]
    · have h1 : (bufOf true (x :: xs)).length ≠ 1 := by
        simp only [if_true] at hx
        omega
      simp [h1]

/-- An empty element is dropped. -/
theorem keep_empty (rooted : Bool) (kept : List (List Char)) : keep rooted kept [] = kept := by
  simp [keep]

/-- A `.` element is dropped. -/
theorem keep_dot (rooted : Bool) (kept : List (List Char)) :
    keep rooted kept ['.'] = kept := by
  simp [keep]

/-- A `..` element at the start is dropped in a rooted path and kept otherwise. -/
theorem keep_dotdot_nil (rooted : Bool) :
    keep rooted [] ['.', '.'] = if rooted then [] else [['.', '.']] := by
  simp [keep]

/-- A `..` element after `..` is kept; after another element it removes that element. -/
theorem keep_dotdot_cons (rooted : Bool) (last : List Char) (before : List (List Char)) :
    keep rooted (last :: before) ['.', '.'] =
      if last = ['.', '.'] then ['.', '.'] :: last :: before else before := by
  simp [keep]

/-- A real element is kept. -/
theorem keep_real (rooted : Bool) (kept : List (List Char)) (e : List Char)
    (h0 : e ≠ []) (h1 : e ≠ ['.']) (h2 : e ≠ ['.', '.']) :
    keep rooted kept e = e :: kept := by
  simp [keep, h0, h1, h2]

/-- The loop of `Clean` on a path that is the `..` element. -/
theorem cleanLoop_dotdot (rooted : Bool) (out : List Char) (dd : Nat) :
    cleanLoop rooted false ['.', '.'] out dd = dotdotElem rooted out dd := by
  rw [cleanLoop, if_neg (by decide), if_neg (by decide), if_pos (by simp), cleanLoop_nil]

/-- The loop of `Clean` on a path that is the `.` element. -/
theorem cleanLoop_dot (rooted : Bool) (out : List Char) (dd : Nat) :
    cleanLoop rooted false ['.'] out dd = (out, dd) := by
  rw [cleanLoop, if_neg (by decide), if_pos rfl, cleanLoop_nil]

/-- One element keeps the invariant. -/
theorem keptInv_step (rooted : Bool) (kept : List (List Char)) (st : List Char × Nat)
    (e : List Char) (he : '/' ∉ e) (hinv : KeptInv rooted kept st) :
    KeptInv rooted (keep rooted kept e) (cleanLoop rooted false e st.1 st.2) := by
  obtain ⟨out, dd⟩ := st
  obtain ⟨hout, reals, dots, hk, hreals, hdots, hroot, hdd⟩ := hinv
  simp only at hout hdd
  subst hk hout hdd
  have hkne : ∀ x ∈ reals ++ dots, x ≠ [] := by
    intro x hx
    rcases List.mem_append.mp hx with h | h
    · exact (hreals x h).1
    · rw [hdots x h]; simp
  by_cases h0 : e = []
  · subst h0
    rw [keep_empty, cleanLoop_nil]
    exact ⟨rfl, reals, dots, rfl, hreals, hdots, hroot, rfl⟩
  by_cases h1 : e = ['.']
  · subst h1
    rw [keep_dot, cleanLoop_dot]
    exact ⟨rfl, reals, dots, rfl, hreals, hdots, hroot, rfl⟩
  by_cases h2 : e = ['.', '.']
  · subst h2
    rw [cleanLoop_dotdot]
    cases reals with
    | cons r rs =>
      -- a real element is on top: backtrack
      have hr := hreals r (List.mem_cons_self _ _)
      have hrr : '/' ∉ r.reverse := by simpa using hr.2.1
      have hrne : r.reverse ≠ [] := by simpa using hr.1
      have hmono := bufOf_length_le rooted rs dots
      have hpos : 0 < r.length := List.length_pos.mpr hr.1
      rw [List.cons_append, keep_dotdot_cons, if_neg hr.2.2.2, bufOf_cons]
      by_cases hrest : rs ++ dots = []
      · have hd : dots = [] := (List.append_eq_nil.mp hrest).2
        rw [if_pos hrest]
        have hddv : (if rooted = true then ['/'] else []).length
            = (bufOf rooted dots).length := by rw [hd, bufOf_nil]
        have hlt : (bufOf rooted dots).length <
            (r.reverse ++ if rooted = true then ['/'] else []).length := by
          rw [← hddv]; simp; omega
        unfold dotdotElem
        rw [if_pos hlt, backtrack_stop _ _ _ hrr hrne hddv]
        refine ⟨?_, [], [], ?_, ?_, ?_, ?_, ?_⟩
        · simp [hrest, bufOf_nil]
        · simp [hrest]
        · simp
        · simp
        · intro _; rfl
        · simp [hd]
      · rw [if_neg hrest]
        have hlt : (bufOf rooted dots).length <
            (r.reverse ++ '/' :: bufOf rooted (rs ++ dots)).length := by
          simp; omega
        unfold dotdotElem
        rw [if_pos hlt, backtrack_slash _ _ _ hrr hmono]
        exact ⟨rfl, rs, dots, rfl, fun x hx => hreals x (List.mem_cons_of_mem _ hx), hdots,
          hroot, rfl⟩
    | nil =>
      -- nothing to remove
      rw [List.nil_append]
      have hnlt : ¬ (bufOf rooted dots).length < (bufOf rooted dots).length := by omega
      unfold dotdotElem
      rw [if_neg hnlt]
      cases hr : rooted with
      | true =>
        have hd : dots = [] := hroot hr
        subst hd
        rw [keep_dotdot_nil]
        simp only [Bool.not_true, Bool.false_eq_true, if_false, if_true]
        exact ⟨rfl, [], [], rfl, by simp, by simp, fun _ => rfl, rfl⟩
      | false =>
        simp only [Bool.not_false, if_true]
        cases dots with
        | nil =>
          rw [keep_dotdot_nil]
          refine ⟨?_, [], [['.', '.']], rfl, ?_, ?_, ?_, ?_⟩
          · simp [bufOf]
          · simp
          · simp
          · intro h; cases h
          · simp [bufOf]
        | cons d ds =>
          have hd : d = ['.', '.'] := hdots d (List.mem_cons_self _ _)
          have hpos : 0 < (bufOf false (d :: ds)).length := by
            have := bufOf_length_pos false d ds (by rw [hd]; simp)
            simpa using this
          have hb : bufOf false (['.', '.'] :: d :: ds)
              = '.' :: '.' :: '/' :: bufOf false (d :: ds) := by
            rw [bufOf_cons ]
            rfl
          rw [keep_dotdot_cons, if_pos hd]
          simp only [hpos, if_true]
          refine ⟨?_, [], ['.', '.'] :: d :: ds, rfl, ?_, ?_, ?_, ?_⟩
          · exact hb.symm
          · simp
          · intro x hx
            rcases List.mem_cons.mp hx with h | h
            · exact h
            · exact hdots x h
          · intro h; cases h
          · rw [hb]
            simp
  · -- a real element
    have hreal : IsReal e := ⟨h0, he, h1, h2⟩
    rw [keep_real rooted _ e h0 h1 h2, cleanLoop_segment rooted e h0 he h1 h2]
    refine ⟨?_, e :: reals, dots, rfl, ?_, hdots, hroot, rfl⟩
    · simp only
      rw [addSlash_bufOf rooted _ hkne, bufOf_cons]
    · intro x hx
      rcases List.mem_cons.mp hx with h | h
      · rw [h]; exact hreal
      · exact hreals x h

/-- The elements of a path keep the invariant of the loop. -/
theorem keptInv_fold (rooted : Bool) (comps : List (List Char)) (hc : ∀ e ∈ comps, '/' ∉ e) :
    ∀ (kept : List (List Char)) (st : List Char × Nat), KeptInv rooted kept st →
    KeptInv rooted (comps.foldl (keep rooted) kept)
      (comps.foldl (fun st e => cleanLoop rooted false e st.1 st.2) st) := by
  induction comps with
  | nil => intro kept st h; exact h
  | cons e t ih =>
    intro kept st h
    simp only [List.foldl_cons]
    exact ih (fun x hx => hc x (List.mem_cons_of_mem _ hx)) _ _
      (keptInv_step rooted kept st e (hc e (List.mem_cons_self _ _)) h)

/-- The buffer at the end of `Clean` holds the elements that the cleaning rules keep. -/
theorem cleanOut_eq_bufOf (p : String) :
    (cleanOut p).1 = bufOf (p.data.head? = some '/')
      ((components p.data).foldl (keep (p.data.head? = some '/')) []) := by
  unfold cleanOut
  cases hd : p.data with
  | nil =>
    simp [cleanLoop_nil, components, keep_empty, bufOf]
  | cons c t =>
    by_cases hc : c = '/'
    · subst hc
      simp only [List.head?_cons, decide_True, if_true, List.tail_cons,
        components_cons_slash, List.foldl_cons, keep_empty]
      rw [cleanLoop_components true t.length t le_rfl]
      have hinv : KeptInv true [] (['/'], 1) :=
        ⟨rfl, [], [], rfl, by simp, by simp, fun _ => rfl, rfl⟩
      exact (keptInv_fold true (components t) (components_no_slash t) [] _ hinv).1
    · have hr' : ¬ (some c = some '/') := fun h => hc (Option.some.inj h)
      simp only [List.head?_cons, hr', decide_False, if_false, Bool.false_eq_true]
      rw [cleanLoop_components false (c :: t).length (c :: t) le_rfl]
      have hinv : KeptInv false [] ([], 0) :=
        ⟨rfl, [], [], rfl, by simp, by simp, fun _ => rfl, rfl⟩
      exact (keptInv_fold false (components (c :: t)) (components_no_slash _) [] _ hinv).1

/-- The buffer read forwards: the kept elements, oldest first, separated by slashes, after the
leading slash of a rooted path. -/
theorem bufOf_render (rooted : Bool) (kept : List (List Char)) :
    String.mk (bufOf rooted kept).reverse =
      (if rooted then "/" else "") ++ "/".intercalate (kept.reverse.map String.mk) := by
  induction kept with
  | nil => cases rooted <;> rfl
  | cons e before ih =>
    rw [bufOf_cons]
    by_cases hb : before = []
    · subst hb
      rw [if_pos rfl]
      cases rooted
      · apply String.ext
        simp [String.intercalate, String.intercalate.go]
      · apply String.ext
        simp [String.intercalate, String.intercalate.go, String.data_append]
    · rw [if_neg hb]
      have hne : before.reverse.map String.mk ≠ [] := by
        simpa using hb
      rw [List.reverse_cons, List.map_append, List.map_singleton,
        intercalate_append _ _ _ hne, ← String.append_assoc, ← String.append_assoc, ← ih]
      apply String.ext
      simp [String.data_append]

/-- `Clean` of a non-empty path renders the elements that the cleaning rules keep. -/
theorem Clean_eq_kept (p : String) (hp : p ≠ "") :
    Clean p =
      (if (p.data.head? = some '/') then
        "/" ++ "/".intercalate
          (((components p.data).foldl (keep (p.data.head? = some '/')) []).reverse.map String.mk)
      else if "/".intercalate
          (((components p.data).foldl (keep (p.data.head? = some '/')) []).reverse.map String.mk)
          = "" then "."
      else "/".intercalate
          (((components p.data).foldl (keep (p.data.head? = some '/')) []).reverse.map
            String.mk)) := by
  unfold Clean
  rw [if_neg hp]
  simp only []
  have hb := cleanOut_eq_bufOf p
  have hrender := bufOf_render (p.data.head? = some '/')
    ((components p.data).foldl (keep (p.data.head? = some '/')) [])
  rw [← hb] at hrender
  by_cases hr : p.data.head? = some '/'
  · simp only [hr, decide_True, if_true] at hrender hb ⊢
    have hlen : (cleanOut p).1.length ≠ 0 := by
      intro h
      have h0 : (cleanOut p).1 = [] := List.length_eq_zero.mp h
      rw [h0] at hrender
      have := congrArg String.data hrender
      simp [String.data_append] at this
    rw [if_neg hlen, hrender]
  · simp only [hr, decide_False, if_false, Bool.false_eq_true] at hrender hb ⊢
    have hempty : ("" : String) ++ "/".intercalate
        (((components p.data).foldl (keep false) []).reverse.map String.mk)
        = "/".intercalate
        (((components p.data).foldl (keep false) []).reverse.map String.mk) := by
      apply String.ext; simp [String.data_append]
    rw [hempty] at hrender
    rw [← hrender]
    by_cases hl : (cleanOut p).1.length = 0
    · have h0 : (cleanOut p).1 = [] := List.length_eq_zero.mp hl
      rw [if_pos hl, if_pos (by rw [h0]; rfl)]
    · rw [if_neg hl, if_neg]
      intro h
      have := congrArg String.data h
      simp at this
      exact hl (by rw [this]; rfl)

/-- The characters of the buffer of `Join` once it is not empty. -/
theorem joinBuf_data (es : List String) : ∀ (buf : String), buf ≠ "" →
    (joinBuf buf es).data = buf.data ++ es.flatMap fun e => '/' :: e.data := by
  induction es with
  | nil => intro buf _; simp [joinBuf_nil]
  | cons e t ih =>
    intro buf hb
    rw [joinBuf_nonempty _ _ _ hb, ih _ (append_ne_empty_left _ _ (append_ne_empty_left _ _ hb))]
    simp [String.data_append]

/-- The elements of a path followed by further paths, each after a slash. -/
theorem components_flatMap (es : List String) : ∀ (a : List Char),
    components (a ++ es.flatMap fun e => '/' :: e.data) =
      components a ++ es.flatMap fun e => components e.data := by
  induction es with
  | nil => intro a; simp
  | cons e t ih =>
    intro a
    rw [List.flatMap_cons, List.cons_append, components_append, ih e.data, List.flatMap_cons]

/-- The cleaning rules pass over the empty elements of a join. -/
theorem foldl_keep_filter (rooted : Bool) (es : List String) : ∀ (kept : List (List Char)),
    (es.flatMap fun e => components e.data).foldl (keep rooted) kept =
      ((es.filter fun e => e ≠ "").flatMap fun e => components e.data).foldl (keep rooted)
        kept := by
  induction es with
  | nil => intro kept; rfl
  | cons e t ih =>
    intro kept
    by_cases he : e = ""
    · subst he
      have : (List.filter (fun e => decide (e ≠ "")) ("" :: t))
          = List.filter (fun e => decide (e ≠ "")) t := by
        simp [List.filter]
      rw [this, List.flatMap_cons, List.foldl_append]
      have hc : components ("" : String).data = [[]] := rfl
      rw [hc, List.foldl_cons, List.foldl_nil, keep_empty]
      exact ih kept
    · have : (List.filter (fun e => decide (e ≠ "")) (e :: t))
          = e :: List.filter (fun e => decide (e ≠ "")) t := by
        simp [List.filter, he]
      rw [this, List.flatMap_cons, List.flatMap_cons, List.foldl_append, List.foldl_append]
      exact ih _

/-- The buffer of `Join` starts with the first element that is not empty. -/
theorem joinBuf_first (es : List String) (hne : (es.filter fun e => e ≠ "") ≠ []) :
    ∃ e rest, e ≠ "" ∧ joinBuf "" es = joinBuf e rest ∧
      (es.filter fun e => e ≠ "") = e :: rest.filter fun e => e ≠ "" := by
  induction es with
  | nil => exact absurd rfl hne
  | cons x t ih =>
    by_cases hx : x = ""
    · subst hx
      have hf : (List.filter (fun e => decide (e ≠ "")) ("" :: t))
          = List.filter (fun e => decide (e ≠ "")) t := by
        simp [List.filter]
      rw [hf] at hne ⊢
      obtain ⟨e, rest, h1, h2, h3⟩ := ih hne
      refine ⟨e, rest, h1, ?_, h3⟩
      rw [joinBuf_empty, if_pos rfl, h2]
    · refine ⟨x, t, hx, ?_, ?_⟩
      · rw [joinBuf_empty, if_neg hx]
      · simp [List.filter, hx]

/-- The elements of a list of strings are all empty exactly when their lengths sum to 0. -/
theorem sum_length_eq_zero (es : List String) :
    (es.map String.length).sum = 0 ↔ (es.filter fun e => e ≠ "") = [] := by
  induction es with
  | nil => simp
  | cons x t ih =>
    by_cases hx : x = ""
    · subst hx
      have : ("" : String).length = 0 := rfl
      simp [List.filter, this, ih]
    · have hl : x.length ≠ 0 := fun h => hx (String.ext (List.length_eq_zero.mp h))
      simp [List.filter, hx]
      omega

/-- `path.Join` meets the standard path-join: for every list of elements, the result of the
embedded `Join` is the join that the rules of the documentation describe. -/
theorem Join_eq_joinSpec (elem : List String) : Join elem = joinSpec elem := by
  unfold Join joinSpec
  by_cases hz : (elem.filter fun e => e ≠ "") = []
  · rw [if_pos ((sum_length_eq_zero elem).mpr hz)]
    simp only [hz, if_true]
  · rw [if_neg (fun h => hz ((sum_length_eq_zero elem).mp h))]
    simp only [hz, if_false]
    obtain ⟨e, rest, he, hbuf, hfilter⟩ := joinBuf_first elem hz
    have hbne : joinBuf e rest ≠ "" := by
      intro h
      have := congrArg String.data h
      rw [joinBuf_data rest e he] at this
      have hed : e.data ≠ [] := fun h0 => he (String.ext h0)
      simp at this
      exact hed this.1
    have hdata := joinBuf_data rest e he
    have hhead : (joinBuf e rest).data.head? = e.data.head? := by
      rw [hdata]
      have hed : e.data ≠ [] := fun h0 => he (String.ext h0)
      obtain ⟨c, t, hct⟩ := List.exists_cons_of_ne_nil hed
      rw [hct]; rfl
    have hcomp : components (joinBuf e rest).data
        = (e :: rest).flatMap fun x => components x.data := by
      rw [hdata, components_flatMap rest e.data, List.flatMap_cons]
    have hfold : ∀ r : Bool, (components (joinBuf e rest).data).foldl (keep r) []
        = ((elem.filter fun e => e ≠ "").flatMap fun x => components x.data).foldl (keep r)
            [] := by
      intro r
      rw [hcomp, foldl_keep_filter r (e :: rest) [], hfilter]
      simp [List.filter, he]
    rw [hbuf, Clean_eq_kept _ hbne, hhead, hfold]
    have hh : ((elem.filter fun e => e ≠ "").head?.bind fun x => x.data.head?)
        = e.data.head? := by
      rw [hfilter]; rfl
    rw [hh]
    by_cases h : e.data.head? = some '/' <;> simp [h]

end path

/-! ### Rendering a URL -/

/-- The result of `Clean` is never the empty string. -/
theorem path.Clean_ne_empty (p : String) : path.Clean p ≠ "" := by
  unfold path.Clean
  by_cases hp : p = ""
  · rw [if_pos hp]; decide
  · rw [if_neg hp]
    by_cases hl : (path.cleanOut p).1.length = 0
    · simp only [hl, if_true]; decide
    · simp only [if_neg hl]
      intro h
      have := congrArg String.data h
      simp at this
      exact hl (by rw [this]; rfl)

/-- The join of a list that holds `api` is not the empty string. -/
theorem path.Join_api_ne_empty (o b : String) (p : List String) :
    path.Join (o :: b :: "api" :: p) ≠ "" := by
  have hs : ((o :: b :: "api" :: p).map String.length).sum ≠ 0 := by
    simp only [List.map, List.sum_cons]
    have : "api".length = 3 := by decide
    omega
  unfold path.Join
  rw [if_neg hs]
  exact path.Clean_ne_empty _

/-- Escaping a non-empty string gives a non-empty string. -/
theorem url.escape_ne_empty (s : String) (mode : url.encoding) (hs : s ≠ "") :
    url.escape s mode ≠ "" := by
  intro h
  have hd := congrArg String.data h
  unfold url.escape at hd
  have hsd : s.data ≠ [] := fun h0 => hs (String.ext h0)
  obtain ⟨c, t, hct⟩ := List.exists_cons_of_ne_nil hsd
  rw [hct] at hd
  simp only [List.flatMap_cons] at hd
  have : (if url.shouldEscape c mode = true then (url.utf8Bytes c).flatMap url.escapeByte
      else [c]) ≠ [] := by
    by_cases he : url.shouldEscape c mode = true
    · rw [if_pos he]
      unfold url.utf8Bytes
      simp only []
      split_ifs <;> simp [url.escapeByte]
    · rw [if_neg he]; simp
  have h2 : (if url.shouldEscape c mode = true then (url.utf8Bytes c).flatMap url.escapeByte
      else [c]) = [] :=
    (List.append_eq_nil.mp hd).1
  exact this h2

/-- Escaping the empty string gives the empty string. -/
theorem url.escape_empty (mode : url.encoding) : url.escape "" mode = "" := rfl

/-- The rendering of a URL with a scheme and a non-empty path: scheme, `://`, the escaped host,
a slash when the host is not empty and the escaped path does not start with one, and the
escaped path. -/
theorem url.String_of_scheme (u : url.URL) (hs : u.Scheme ≠ "") (hp : u.Path ≠ "") :
    u.String = u.Scheme ++ "://" ++ url.escape u.Host url.encoding.encodeHost ++
      (if u.EscapedPath.data.head? ≠ some '/' ∧ u.Host ≠ "" then "/" else "") ++
      u.EscapedPath := by
  have hep : u.EscapedPath ≠ "" := by
    unfold url.URL.EscapedPath
    by_cases h : u.Path = "*"
    · rw [if_pos h]; decide
    · rw [if_neg h]; exact url.escape_ne_empty _ _ hp
  have hbuf : ∀ a b : String, a ≠ "" → a ++ b ≠ "" := by
    intro a b ha h
    have := congrArg String.data h
    simp [String.data_append] at this
    exact ha (String.ext this.1)
  have hcolon : u.Scheme ++ ":" ≠ "" := hbuf _ _ hs
  unfold url.URL.String
  simp only [ne_eq, hs, not_false_eq_true, if_true, true_or, hp, or_true, hep, true_and]
  by_cases hh : u.Host = ""
  · simp only [hh, not_true_eq_false, if_false, and_false, url.escape_empty]
    rw [if_neg (fun h => hbuf _ _ hcolon h.1)]
    apply String.ext
    simp [String.data_append]
  · simp only [hh, not_false_eq_true, if_true, and_true]
    by_cases hr : u.EscapedPath.data.head? = some '/'
    · simp only [hr, not_true_eq_false, if_false]
      rw [if_neg (fun h => hbuf _ _ (hbuf _ _ hcolon) h.1)]
      apply String.ext
      simp [String.data_append]
    · simp only [hr, not_false_eq_true, if_true]
      rw [if_neg (fun h => hbuf _ _ (hbuf _ _ (hbuf _ _ hcolon)) h.1)]
      apply String.ext
      simp [String.data_append]


/-- Escaping goes through the parts of a string. -/
theorem url.escape_append (a b : String) (mode : url.encoding) :
    url.escape (a ++ b) mode = url.escape a mode ++ url.escape b mode := by
  apply String.ext
  simp [url.escape, String.data_append, List.flatMap_append]

/-- Escaping leaves a string without characters to escape as it is. -/
theorem url.escape_unescaped (s : String) (mode : url.encoding) (h : url.Unescaped s mode) :
    url.escape s mode = s := by
  apply String.ext
  unfold url.escape
  simp only []
  have : ∀ l : List Char, (∀ c ∈ l, url.shouldEscape c mode = false) →
      (l.flatMap fun c =>
        if url.shouldEscape c mode = true then (url.utf8Bytes c).flatMap url.escapeByte
        else [c]) = l := by
    intro l
    induction l with
    | nil => intro _; rfl
    | cons c t ih =>
      intro hl
      have hc := hl c (List.mem_cons_self _ _)
      simp only [List.flatMap_cons, hc, Bool.false_eq_true, if_false, List.singleton_append]
      rw [ih (fun d hd => hl d (List.mem_cons_of_mem _ hd))]
  exact this s.data h

/-- The first character of an escaped path is a slash exactly when the first character of
the path is. -/
theorem url.escape_head (s : String) :
    ((url.escape s url.encoding.encodePath).data.head? = some '/') ↔
      (s.data.head? = some '/') := by
  unfold url.escape
  cases hd : s.data with
  | nil => simp
  | cons c t =>
    simp only [List.flatMap_cons, List.head?_cons, Option.some.injEq]
    by_cases he : url.shouldEscape c url.encoding.encodePath = true
    · rw [if_pos he]
      have hne : c ≠ '/' := by
        intro h
        rw [h] at he
        revert he
        decide
      have : ((url.utf8Bytes c).flatMap url.escapeByte ++
          t.flatMap fun c => if url.shouldEscape c url.encoding.encodePath = true then
            (url.utf8Bytes c).flatMap url.escapeByte else [c]).head? = some '%' := by
        unfold url.utf8Bytes
        simp only []
        split_ifs <;> simp [url.escapeByte]
      rw [this]
      simp only [Option.some.injEq, hne, iff_false]
      decide
    · rw [if_neg he]
      simp

/-- The join of owner, blog host and `api` has two characters or more. -/
theorem path.Join_base_length (o b : String) : 2 ≤ (path.Join [o, b, "api"]).data.length := by
  obtain ⟨hne, hlen⟩ := path.joinBuf_base o b
  have hs3 : ([o, b, "api"].map String.length).sum ≠ 0 := by
    simp only [List.map, List.sum_cons, List.sum_nil]
    have : "api".length = 3 := by decide
    omega
  unfold path.Join path.Clean
  rw [if_neg hs3, if_neg hne]
  have hl0 : (path.cleanOut (path.joinBuf "" [o, b, "api"])).1.length ≠ 0 := by omega
  simp only [if_neg hl0, List.length_reverse]
  exact hlen

/-- The URL of a member: for a username that is a single real path element, the URL that
`buildURL("members", username)` renders is the rendering of the API base followed by
`/members/` and the escaped username. -/
theorem buildURL_member_string (c : Client) (u : String) (hu : path.IsSegment u) :
    (c.buildURL ["members", u]).String =
      (c.buildURL []).String ++ "/members/" ++ url.escape u url.encoding.encodePath := by
  have hP := path.Join_members_segment c.owner c.blogHost u hu
  have hlen := path.Join_base_length c.owner c.blogHost
  have hs : ∀ p, (c.buildURL p).Scheme ≠ "" := by
    intro p
    show (if c.insecure then "http" else "https") ≠ ""
    cases c.insecure <;> decide
  have hbase : (c.buildURL []).Path = path.Join [c.owner, c.blogHost, "api"] := rfl
  have hfull : (c.buildURL ["members", u]).Path
      = path.Join [c.owner, c.blogHost, "api"] ++ "/members/" ++ u := hP
  have hne1 : path.Join [c.owner, c.blogHost, "api"] ≠ "*" := by
    intro h
    rw [h] at hlen
    revert hlen
    decide
  have hne2 : path.Join [c.owner, c.blogHost, "api"] ++ "/members/" ++ u ≠ "*" := by
    intro h
    have := congrArg (fun s => s.data.length) h
    simp [String.data_append] at this
    omega
  have he1 : (c.buildURL []).EscapedPath
      = url.escape (path.Join [c.owner, c.blogHost, "api"]) url.encoding.encodePath := by
    unfold url.URL.EscapedPath
    rw [hbase, if_neg hne1]
  have he2 : (c.buildURL ["members", u]).EscapedPath
      = url.escape (path.Join [c.owner, c.blogHost, "api"]) url.encoding.encodePath ++
        "/members/" ++ url.escape u url.encoding.encodePath := by
    unfold url.URL.EscapedPath
    rw [hfull, if_neg hne2, url.escape_append, url.escape_append]
    rfl
  have hhead : (c.buildURL ["members", u]).EscapedPath.data.head?
      = (c.buildURL []).EscapedPath.data.head? := by
    rw [he2, he1]
    have hne : (url.escape (path.Join [c.owner, c.blogHost, "api"])
        url.encoding.encodePath).data ≠ [] := by
      intro h
      exact url.escape_ne_empty _ _ (path.Join_api_ne_empty c.owner c.blogHost [])
        (String.ext h)
    obtain ⟨x, t, hxt⟩ := List.exists_cons_of_ne_nil hne
    simp [String.data_append, hxt]
  have hr1 := url.String_of_scheme (c.buildURL ["members", u]) (hs _)
    (path.Join_api_ne_empty c.owner c.blogHost ["members", u])
  have hr2 := url.String_of_scheme (c.buildURL []) (hs _)
    (path.Join_api_ne_empty c.owner c.blogHost [])
  rw [hr1, hr2, hhead, he2, he1]
  apply String.ext
  simp [String.data_append, Client.buildURL]

/-! ### The URL builder -/

/-- The escaped path of a URL whose path has no character to escape is the path. -/
theorem url.EscapedPath_unescaped (u : url.URL)
    (hp : url.Unescaped u.Path url.encoding.encodePath) : u.EscapedPath = u.Path := by
  unfold url.URL.EscapedPath
  by_cases h : u.Path = "*"
  · rw [if_pos h, h]
  · rw [if_neg h, url.escape_unescaped _ _ hp]

/-- C1 as stated fails for the rendered URL: it is not always the scheme, `://`, the host, a
slash and the path.  For the owner `/owner` the joined path is rooted and no slash is added;
for an empty API host the host part is missing, so that the owner stands where the host is
read; for the API host `a b` the host is escaped. -/
theorem buildURL_not_scheme_host_slash_path :
    ((rootedOwnerClient.buildURL ["members"]).Path = "/owner/blog.example.com/api/members" ∧
      (rootedOwnerClient.buildURL ["members"]).String
        = "https://blog.hatena.ne.jp/owner/blog.example.com/api/members" ∧
      (rootedOwnerClient.buildURL ["members"]).String
        ≠ "https" ++ "://" ++ rootedOwnerClient.hatenablogHost ++ "/" ++
            (rootedOwnerClient.buildURL ["members"]).Path) ∧
    ((noHostClient.buildURL ["members"]).Path = "owner/blog.example.com/api/members" ∧
      (noHostClient.buildURL ["members"]).String
        = "https://owner/blog.example.com/api/members" ∧
      (noHostClient.buildURL ["members"]).String
        ≠ "https" ++ "://" ++ noHostClient.hatenablogHost ++ "/" ++
            (noHostClient.buildURL ["members"]).Path) ∧
    ((spaceHostClient.buildURL ["members"]).String
        = "https://a%20b/owner/blog.example.com/api/members" ∧
      (spaceHostClient.buildURL ["members"]).String
        ≠ "https" ++ "://" ++ spaceHostClient.hatenablogHost ++ "/" ++
            (spaceHostClient.buildURL ["members"]).Path) := by
  decide

/-- C1, amended: for every client configuration and every list of path segments, `buildURL`
yields the URL whose scheme is `https` (or `http` when `insecure` is set), whose host is
`hatenablogHost` and whose path is the standard path-join of owner, blog host, `api` and the
segments, as `joinSpec` states it (empty elements ignored, the others split at slashes, empty
and `.` pieces dropped, `..` pieces resolved, the rest joined by single slashes).  Rendered,
the URL is the scheme, `://`, the escaped host, a slash when the host is not empty and the
path is not rooted, and the escaped path; it is exactly `<scheme>://<host>/<path>` whenever
the host is not empty, the path is not rooted and neither holds a character to escape.  When
owner, blog host and segments are single real path elements the path is
`<owner>/<blogHost>/api/<segments...>`; redundant separators in the segments are collapsed;
and for owner `owner`, blog host `blog.example.com`, the default API host and the segment
`members` the URL renders as `https://blog.hatena.ne.jp/owner/blog.example.com/api/members`,
with `http` when `insecure` is set. -/
theorem buildURL_spec (c : Client) (p : List String) :
    c.buildURL p =
        { Scheme := if c.insecure then "http" else "https", Host := c.hatenablogHost,
          Path := path.joinSpec (c.owner :: c.blogHost :: "api" :: p) } ∧
      (c.buildURL p).String =
        (if c.insecure then "http" else "https") ++ "://" ++
          url.escape c.hatenablogHost url.encoding.encodeHost ++
          (if (c.buildURL p).EscapedPath.data.head? ≠ some '/' ∧ c.hatenablogHost ≠ ""
            then "/" else "") ++
          (c.buildURL p).EscapedPath ∧
      (c.hatenablogHost ≠ "" → (c.buildURL p).Path.data.head? ≠ some '/' →
        url.Unescaped c.hatenablogHost url.encoding.encodeHost →
        url.Unescaped (c.buildURL p).Path url.encoding.encodePath →
        (c.buildURL p).String =
          (if c.insecure then "http" else "https") ++ "://" ++ c.hatenablogHost ++ "/" ++
            (c.buildURL p).Path) ∧
      ((∀ s ∈ c.owner :: c.blogHost :: p, path.IsSegment s) →
        (c.buildURL p).Path = "/".intercalate (c.owner :: c.blogHost :: "api" :: p)) ∧
      (∀ (t : transport) (username : String) (cache : Slice),
        ((Client.mk t username "owner" "blog.example.com" "blog.hatena.ne.jp" false
          cache).buildURL ["members"]).String
          = "https://blog.hatena.ne.jp/owner/blog.example.com/api/members") ∧
      (∀ (t : transport) (username : String) (cache : Slice),
        ((Client.mk t username "owner" "blog.example.com" "blog.hatena.ne.jp" true
          cache).buildURL ["members"]).String
          = "http://blog.hatena.ne.jp/owner/blog.example.com/api/members") ∧
      (∀ (t : transport) (username : String) (cache : Slice),
        ((Client.mk t username "owner" "blog.example.com" "blog.hatena.ne.jp" false
          cache).buildURL ["members//", "", "./alice/", "x/.."]).Path
          = "owner/blog.example.com/api/members/alice") := by
  have hstr : (c.buildURL p).String =
        (if c.insecure then "http" else "https") ++ "://" ++
          url.escape c.hatenablogHost url.encoding.encodeHost ++
          (if (c.buildURL p).EscapedPath.data.head? ≠ some '/' ∧ c.hatenablogHost ≠ ""
            then "/" else "") ++
          (c.buildURL p).EscapedPath := by
    have hs : (c.buildURL p).Scheme ≠ "" := by
      show (if c.insecure then "http" else "https") ≠ ""
      cases c.insecure <;> decide
    exact url.String_of_scheme (c.buildURL p) hs (path.Join_api_ne_empty c.owner c.blogHost p)
  refine ⟨?_, hstr, ?_, ?_, ?_, ?_, ?_⟩
  · show url.URL.mk _ _ (path.Join (c.owner :: c.blogHost :: "api" :: p)) = _
    rw [path.Join_eq_joinSpec]
  · intro hhost hroot hunh hunp
    have hand : (c.buildURL p).Path.data.head? ≠ some '/' ∧ c.hatenablogHost ≠ "" :=
      ⟨hroot, hhost⟩
    rw [hstr, url.EscapedPath_unescaped _ hunp, url.escape_unescaped _ _ hunh, if_pos hand]
  · intro hall
    refine path.Join_segments (c.owner :: c.blogHost :: "api" :: p) (by simp) ?_
    intro s hs
    simp only [List.mem_cons] at hs
    rcases hs with hs | hs | hs | hs
    · exact hall s (by simp [hs])
    · exact hall s (by simp [hs])
    · rw [hs]; exact path.isSegment_api
    · exact hall s (by simp [hs])
  · intro t username cache
    have hurl : (url.URL.mk "https" "blog.hatena.ne.jp"
        (path.Join ["owner", "blog.example.com", "api", "members"])).String
        = "https://blog.hatena.ne.jp/owner/blog.example.com/api/members" := by decide
    exact hurl
  · intro t username cache
    have hurl : (url.URL.mk "http" "blog.hatena.ne.jp"
        (path.Join ["owner", "blog.example.com", "api", "members"])).String
        = "http://blog.hatena.ne.jp/owner/blog.example.com/api/members" := by decide
    exact hurl
  · intro t username cache
    have hpath : path.Join ["owner", "blog.example.com", "api", "members//", "", "./alice/",
        "x/.."] = "owner/blog.example.com/api/members/alice" := by decide
    exact hpath

/-- The witness of `buildURL_spec`: on the client of the tests the host is not empty, the
joined path is not rooted and neither has a character to escape, so the URL of the segment
`members` renders as scheme, `://`, host, slash and path; owner, blog host and `members` are
single real path elements, so the path is `owner/blog.example.com/api/members`. -/
theorem buildURL_spec_witness :
    (exampleClient.buildURL ["members"]).String
      = "https" ++ "://" ++ "blog.hatena.ne.jp" ++ "/" ++ "owner/blog.example.com/api/members" ∧
    (∀ s ∈ exampleClient.owner :: exampleClient.blogHost :: ["members"], path.IsSegment s) ∧
    (exampleClient.buildURL ["members"]).Path = "owner/blog.example.com/api/members" :=
  ⟨((buildURL_spec exampleClient ["members"]).2.2.1 (by decide) (by decide)
      (by unfold url.Unescaped; decide) (by unfold url.Unescaped; decide)).trans (by decide),
   by
      intro s hs
      simp only [List.mem_cons, List.mem_singleton, List.not_mem_nil, or_false] at hs
      rcases hs with hs | hs | hs <;> rw [hs] <;>
        exact ⟨by decide, by decide, by decide, by decide⟩,
   ((buildURL_spec exampleClient ["members"]).2.2.2.1 (by
      intro s hs
      simp only [List.mem_cons, List.mem_singleton, List.not_mem_nil, or_false] at hs
      rcases hs with hs | hs | hs <;> rw [hs] <;>
        exact ⟨by decide, by decide, by decide, by decide⟩)).trans (by decide)⟩

/-! ### The calls of `http.Client` -/

/-- A response with a 2xx status is no redirect. -/
theorem followsRedirect_of_2xx (req ireq : http.Request) (res : http.Response)
    (h2 : 200 ≤ res.StatusCode ∧ res.StatusCode < 300) :
    http.followsRedirect req res ireq = false := by
  have h1 : ¬(res.StatusCode = 301 ∨ res.StatusCode = 302 ∨ res.StatusCode = 303) := by omega
  have h3 : ¬(res.StatusCode = 307 ∨ res.StatusCode = 308) := by omega
  simp [http.followsRedirect, http.redirectBehavior, h1, h3]

/-- A response whose status is none of 301, 302, 303, 307 and 308 is no redirect. -/
theorem followsRedirect_of_status (req ireq : http.Request) (res : http.Response)
    (h1 : ¬(res.StatusCode = 301 ∨ res.StatusCode = 302 ∨ res.StatusCode = 303))
    (h3 : ¬(res.StatusCode = 307 ∨ res.StatusCode = 308)) :
    http.followsRedirect req res ireq = false := by
  simp [http.followsRedirect, http.redirectBehavior, h1, h3]

/-- A response without `Location` is no redirect to follow. -/
theorem followsRedirect_of_no_location (req ireq : http.Request) (res : http.Response)
    (hl : res.Header.Get "Location" = "") :
    http.followsRedirect req res ireq = false := by
  simp [http.followsRedirect, hl]

/-- When the transport fails on the first request, `Do` returns the `*url.Error` of that
failure after the one request. -/
theorem do_error (env : Env) (c : Client) (req : http.Request) (err : String)
    (hres : env.wsse c.client.Transport (c.client.prepare req) = Except.error err) :
    c.Do env req =
      (Except.error (Error.url (http.urlErrorOp req.Method) (env.stripPassword req.URL) err),
        [c.client.prepare req]) := by
  simp [Client.Do, transport.doLoop, transport.hop, transport.RoundTrip, hres]

/-- When the answer to the first request is no redirect to follow, `Do` returns that answer
after the one request. -/
theorem do_final (env : Env) (c : Client) (req : http.Request) (res : http.Response)
    (hres : env.wsse c.client.Transport (c.client.prepare req) = Except.ok res)
    (hnf : http.followsRedirect req res req = false) :
    c.Do env req = (Except.ok res, [c.client.prepare req]) := by
  simp only [http.followsRedirect, Bool.and_eq_false_imp, bne_eq_false_iff_eq,
    beq_iff_eq, Bool.not_eq_true, bne_iff_ne, ne_eq, Decidable.not_not] at hnf
  by_cases hr : (http.redirectBehavior req.Method res req).2.1 = true
  · have hl := hnf hr
    simp [Client.Do, transport.doLoop, transport.hop, transport.RoundTrip, hres, hr, hl]
  · simp [Client.Do, transport.doLoop, transport.hop, transport.RoundTrip, hres, hr]

/-- The first request that `doLoop` hands to the wrapped transport is the given one, with the
User-Agent set. -/
theorem doLoop_sent (env : Env) (t : transport) (ireq req : http.Request) (left : Nat) :
    ∃ rest, (t.doLoop env ireq left req).2 = t.prepare req :: rest := by
  cases left with
  | zero =>
    unfold transport.doLoop
    cases t.hop env ireq req <;> exact ⟨[], rfl⟩
  | succ n =>
    unfold transport.doLoop
    cases t.hop env ireq req with
    | done r => exact ⟨[], rfl⟩
    | redirect next loc => exact ⟨_, rfl⟩

/-- The first request that `Do` hands to the wrapped transport is the given one, with the
User-Agent set. -/
theorem do_sent (env : Env) (c : Client) (req : http.Request) :
    ∃ rest, (c.Do env req).2 = c.client.prepare req :: rest :=
  doLoop_sent env c.client req req 9

/-! ### Unfolding the operations -/

/-- When `http.NewRequest` rejects the URL, `AddMember` returns its error and sends nothing. -/
theorem addMember_rejected (env : Env) (c : Client) (h : Heap) (username role err : String)
    (hurl : env.urlError (c.buildURL ["members"]).String = some err) :
    c.AddMember env h username role = ⟨Except.error (Error.request err), c, h, []⟩ := by
  simp [Client.AddMember, http.NewRequest, hurl]

/-- When `Do` fails, `AddMember` returns its error. -/
theorem addMember_do_error (env : Env) (c : Client) (h : Heap) (username role : String)
    (err : Error) (sent : List http.Request)
    (hurl : env.urlError (c.buildURL ["members"]).String = none)
    (hdo : c.Do env (c.addRequest username role) = (Except.error err, sent)) :
    c.AddMember env h username role = ⟨Except.error err, c, h, sent⟩ := by
  simp only [Client.addRequest] at hdo
  simp [Client.AddMember, http.NewRequest, hurl, http.Header.Set, json.Marshal, hdo]

/-- With the response that `Do` returns, `AddMember` is decided by the status, the read of the
body and its decoding. -/
theorem addMember_response (env : Env) (c : Client) (h : Heap) (username role : String)
    (res : http.Response) (sent : List http.Request)
    (hurl : env.urlError (c.buildURL ["members"]).String = none)
    (hdo : c.Do env (c.addRequest username role) = (Except.ok res, sent)) :
    c.AddMember env h username role =
      if ¬(200 ≤ res.StatusCode ∧ res.StatusCode < 300) then
        ⟨Except.error (Error.status res.StatusCode res.Body), c, h, sent⟩
      else
        match res.ReadErr with
        | some err => ⟨Except.error (Error.read err), c, h, sent⟩
        | none =>
          match env.unmarshalMember res.Body with
          | Except.error err => ⟨Except.error (Error.decode err), c, h, sent⟩
          | Except.ok resData =>
            ⟨Except.ok resData, { c with membersCache := none }, h, sent⟩ := by
  simp only [Client.addRequest] at hdo
  simp [Client.AddMember, http.NewRequest, hurl, http.Header.Set, json.Marshal, hdo]

/-- With a populated cache, `ListMembers` returns a fresh copy and sends nothing. -/
theorem listMembers_hit (env : Env) (c : Client) (h : Heap) (cached : Nat)
    (hc : c.membersCache = some cached) :
    c.ListMembers env h =
      ⟨Except.ok (some h.arrays.length), c,
        { arrays := h.arrays ++ [h.elems (some cached)] }, []⟩ := by
  simp [Client.ListMembers, hc, Heap.appendNew]

/-- When `http.NewRequest` rejects the URL, `ListMembers` on an unpopulated cache returns its
error and sends nothing. -/
theorem listMembers_rejected (env : Env) (c : Client) (h : Heap) (err : String)
    (hc : c.membersCache = none)
    (hurl : env.urlError (c.buildURL ["members"]).String = some err) :
    c.ListMembers env h = ⟨Except.error (Error.request err), c, h, []⟩ := by
  simp [Client.ListMembers, hc, http.NewRequest, hurl]

/-- When `Do` fails, `ListMembers` on an unpopulated cache returns its error. -/
theorem listMembers_do_error (env : Env) (c : Client) (h : Heap) (err : Error)
    (sent : List http.Request) (hc : c.membersCache = none)
    (hurl : env.urlError (c.buildURL ["members"]).String = none)
    (hdo : c.Do env c.listRequest = (Except.error err, sent)) :
    c.ListMembers env h = ⟨Except.error err, c, h, sent⟩ := by
  simp only [Client.listRequest] at hdo
  simp [Client.ListMembers, hc, http.NewRequest, hurl, hdo]

/-- With the response that `Do` returns, `ListMembers` on an unpopulated cache is decided by
the status, the read of the body and its decoding; on success the returned slice is the one
stored in the cache. -/
theorem listMembers_response (env : Env) (c : Client) (h : Heap) (res : http.Response)
    (sent : List http.Request) (hc : c.membersCache = none)
    (hurl : env.urlError (c.buildURL ["members"]).String = none)
    (hdo : c.Do env c.listRequest = (Except.ok res, sent)) :
    c.ListMembers env h =
      if ¬(200 ≤ res.StatusCode ∧ res.StatusCode < 300) then
        ⟨Except.error (Error.status res.StatusCode res.Body), c, h, sent⟩
      else
        match res.ReadErr with
        | some err => ⟨Except.error (Error.read err), c, h, sent⟩
        | none =>
          match env.unmarshalMembers res.Body with
          | Except.error err => ⟨Except.error (Error.decode err), c, h, sent⟩
          | Except.ok resData =>
            ⟨Except.ok (some h.arrays.length),
              { c with membersCache := some h.arrays.length },
              { arrays := h.arrays ++ [resData] }, sent⟩ := by
  simp only [Client.listRequest] at hdo
  simp [Client.ListMembers, hc, http.NewRequest, hurl, hdo, Heap.appendNew]

/-- When `http.NewRequest` rejects the URL, `DeleteMember` returns its error and sends
nothing. -/
theorem deleteMember_rejected (env : Env) (c : Client) (h : Heap) (username err : String)
    (hurl : env.urlError (c.buildURL ["members", username]).String = some err) :
    c.DeleteMember env h username = ⟨Except.error (Error.request err), c, h, []⟩ := by
  simp [Client.DeleteMember, http.NewRequest, hurl]

/-- When `Do` fails, `DeleteMember` returns its error. -/
theorem deleteMember_do_error (env : Env) (c : Client) (h : Heap) (username : String)
    (err : Error) (sent : List http.Request)
    (hurl : env.urlError (c.buildURL ["members", username]).String = none)
    (hdo : c.Do env (c.deleteRequest username) = (Except.error err, sent)) :
    c.DeleteMember env h username = ⟨Except.error err, c, h, sent⟩ := by
  simp only [Client.deleteRequest] at hdo
  simp [Client.DeleteMember, http.NewRequest, hurl, hdo]

/-- With the response that `Do` returns, `DeleteMember` is decided by the status alone. -/
theorem deleteMember_response (env : Env) (c : Client) (h : Heap) (username : String)
    (res : http.Response) (sent : List http.Request)
    (hurl : env.urlError (c.buildURL ["members", username]).String = none)
    (hdo : c.Do env (c.deleteRequest username) = (Except.ok res, sent)) :
    c.DeleteMember env h username =
      if ¬(200 ≤ res.StatusCode ∧ res.StatusCode < 300) then
        ⟨Except.error (Error.status res.StatusCode res.Body), c, h, sent⟩
      else
        ⟨Except.ok (), { c with membersCache := none }, h, sent⟩ := by
  simp only [Client.deleteRequest] at hdo
  simp [Client.DeleteMember, http.NewRequest, hurl, hdo]

/-- A status outside [200,300) makes `AddMember` return the status error. -/
theorem addMember_status (env : Env) (c : Client) (h : Heap) (username role : String)
    (res : http.Response)
    (sent : List http.Request)
    (hurl : env.urlError (c.buildURL ["members"]).String = none)
    (hdo : c.Do env (c.addRequest username role) = (Except.ok res, sent))
    (h2 : ¬(200 ≤ res.StatusCode ∧ res.StatusCode < 300)) :
    c.AddMember env h username role =
      ⟨Except.error (Error.status res.StatusCode res.Body), c, h, sent⟩ := by
  rw [addMember_response env c h username role res sent hurl hdo, if_pos h2]

/-- A 2xx response whose body cannot be read makes `AddMember` return the read error. -/
theorem addMember_read_error (env : Env) (c : Client) (h : Heap) (username role : String)
    (res : http.Response)
    (sent : List http.Request) (err : String)
    (hurl : env.urlError (c.buildURL ["members"]).String = none)
    (hdo : c.Do env (c.addRequest username role) = (Except.ok res, sent))
    (h2 : 200 ≤ res.StatusCode ∧ res.StatusCode < 300) (hrd : res.ReadErr = some err) :
    c.AddMember env h username role = ⟨Except.error (Error.read err), c, h, sent⟩ := by
  rw [addMember_response env c h username role res sent hurl hdo, if_neg (not_not.mpr h2)]
  simp only [hrd]

/-- A 2xx response whose body does not decode makes `AddMember` return the decode error. -/
theorem addMember_decode_error (env : Env) (c : Client) (h : Heap) (username role : String)
    (res : http.Response)
    (sent : List http.Request) (err : String)
    (hurl : env.urlError (c.buildURL ["members"]).String = none)
    (hdo : c.Do env (c.addRequest username role) = (Except.ok res, sent))
    (h2 : 200 ≤ res.StatusCode ∧ res.StatusCode < 300) (hrd : res.ReadErr = none)
    (hd : env.unmarshalMember res.Body = Except.error err) :
    c.AddMember env h username role = ⟨Except.error (Error.decode err), c, h, sent⟩ := by
  rw [addMember_response env c h username role res sent hurl hdo, if_neg (not_not.mpr h2)]
  simp only [hrd, hd]

/-- A 2xx response whose body decodes makes `AddMember` succeed. -/
theorem addMember_ok (env : Env) (c : Client) (h : Heap) (username role : String)
    (res : http.Response)
    (sent : List http.Request) (resData : BlogMember)
    (hurl : env.urlError (c.buildURL ["members"]).String = none)
    (hdo : c.Do env (c.addRequest username role) = (Except.ok res, sent))
    (h2 : 200 ≤ res.StatusCode ∧ res.StatusCode < 300) (hrd : res.ReadErr = none)
    (hd : env.unmarshalMember res.Body = Except.ok resData) :
    c.AddMember env h username role =
      ⟨Except.ok resData, { c with membersCache := none }, h, sent⟩ := by
  rw [addMember_response env c h username role res sent hurl hdo, if_neg (not_not.mpr h2)]
  simp only [hrd, hd]

/-- A status outside [200,300) makes `ListMembers` return the status error. -/
theorem listMembers_status (env : Env) (c : Client) (h : Heap) (res : http.Response)
    (sent : List http.Request)
    (hc : c.membersCache = none)
    (hurl : env.urlError (c.buildURL ["members"]).String = none)
    (hdo : c.Do env c.listRequest = (Except.ok res, sent))
    (h2 : ¬(200 ≤ res.StatusCode ∧ res.StatusCode < 300)) :
    c.ListMembers env h =
      ⟨Except.error (Error.status res.StatusCode res.Body), c, h, sent⟩ := by
  rw [listMembers_response env c h res sent hc hurl hdo, if_pos h2]

/-- A 2xx response whose body cannot be read makes `ListMembers` return the read error. -/
theorem listMembers_read_error (env : Env) (c : Client) (h : Heap) (res : http.Response)
    (sent : List http.Request) (err : String)
    (hc : c.membersCache = none)
    (hurl : env.urlError (c.buildURL ["members"]).String = none)
    (hdo : c.Do env c.listRequest = (Except.ok res, sent))
    (h2 : 200 ≤ res.StatusCode ∧ res.StatusCode < 300) (hrd : res.ReadErr = some err) :
    c.ListMembers env h = ⟨Except.error (Error.read err), c, h, sent⟩ := by
  rw [listMembers_response env c h res sent hc hurl hdo, if_neg (not_not.mpr h2)]
  simp only [hrd]

/-- A 2xx response whose body does not decode makes `ListMembers` return the decode error. -/
theorem listMembers_decode_error (env : Env) (c : Client) (h : Heap) (res : http.Response)
    (sent : List http.Request) (err : String)
    (hc : c.membersCache = none)
    (hurl : env.urlError (c.buildURL ["members"]).String = none)
    (hdo : c.Do env c.listRequest = (Except.ok res, sent))
    (h2 : 200 ≤ res.StatusCode ∧ res.StatusCode < 300) (hrd : res.ReadErr = none)
    (hd : env.unmarshalMembers res.Body = Except.error err) :
    c.ListMembers env h = ⟨Except.error (Error.decode err), c, h, sent⟩ := by
  rw [listMembers_response env c h res sent hc hurl hdo, if_neg (not_not.mpr h2)]
  simp only [hrd, hd]

/-- A 2xx response whose body decodes makes `ListMembers` succeed. -/
theorem listMembers_ok (env : Env) (c : Client) (h : Heap) (res : http.Response)
    (sent : List http.Request) (resData : List (Option BlogMember))
    (hc : c.membersCache = none)
    (hurl : env.urlError (c.buildURL ["members"]).String = none)
    (hdo : c.Do env c.listRequest = (Except.ok res, sent))
    (h2 : 200 ≤ res.StatusCode ∧ res.StatusCode < 300) (hrd : res.ReadErr = none)
    (hd : env.unmarshalMembers res.Body = Except.ok resData) :
    c.ListMembers env h =
      ⟨Except.ok (some h.arrays.length), { c with membersCache := some h.arrays.length },
        { arrays := h.arrays ++ [resData] }, sent⟩ := by
  rw [listMembers_response env c h res sent hc hurl hdo, if_neg (not_not.mpr h2)]
  simp only [hrd, hd]

/-- A status outside [200,300) makes `DeleteMember` return the status error. -/
theorem deleteMember_status (env : Env) (c : Client) (h : Heap) (username : String) (res : http.Response)
    (sent : List http.Request)
    (hurl : env.urlError (c.buildURL ["members", username]).String = none)
    (hdo : c.Do env (c.deleteRequest username) = (Except.ok res, sent))
    (h2 : ¬(200 ≤ res.StatusCode ∧ res.StatusCode < 300)) :
    c.DeleteMember env h username =
      ⟨Except.error (Error.status res.StatusCode res.Body), c, h, sent⟩ := by
  rw [deleteMember_response env c h username res sent hurl hdo, if_pos h2]

/-- A 2xx response makes `DeleteMember` succeed and clear the cache. -/
theorem deleteMember_ok (env : Env) (c : Client) (h : Heap) (username : String) (res : http.Response)
    (sent : List http.Request)
    (hurl : env.urlError (c.buildURL ["members", username]).String = none)
    (hdo : c.Do env (c.deleteRequest username) = (Except.ok res, sent))
    (h2 : 200 ≤ res.StatusCode ∧ res.StatusCode < 300) :
    c.DeleteMember env h username =
      ⟨Except.ok (), { c with membersCache := none }, h, sent⟩ := by
  rw [deleteMember_response env c h username res sent hurl hdo, if_neg (not_not.mpr h2)]

/-- The slice made by `append([]*BlogMember{}, xs...)` holds `xs`. -/
theorem Heap.elems_new (arrays : List (List (Option BlogMember)))
    (xs : List (Option BlogMember)) :
    ({ arrays := arrays ++ [xs] } : Heap).elems (some arrays.length) = xs := by
  simp [Heap.elems]

/-- A later allocation does not change the elements of an earlier slice. -/
theorem Heap.elems_old (arrays : List (List (Option BlogMember)))
    (xs : List (Option BlogMember)) (a : Nat) (ha : a < arrays.length) :
    ({ arrays := arrays ++ [xs] } : Heap).elems (some a)
      = ({ arrays := arrays } : Heap).elems (some a) := by
  simp [Heap.elems, List.getElem?_append_left ha]

/-- A successful `AddMember` leaves the client with an unpopulated cache and the heap as it
was. -/
theorem addMember_success (env : Env) (c : Client) (h : Heap) (username role : String)
    (m : BlogMember) (hok : (c.AddMember env h username role).result = Except.ok m) :
    (c.AddMember env h username role).client = { c with membersCache := none } ∧
      (c.AddMember env h username role).heap = h := by
  rcases hu : env.urlError (c.buildURL ["members"]).String with _ | err
  · rcases hdo : c.Do env (c.addRequest username role) with ⟨r, sent⟩
    rcases r with e | res
    · rw [addMember_do_error env c h username role e sent hu hdo] at hok
      cases hok
    · by_cases h2 : 200 ≤ res.StatusCode ∧ res.StatusCode < 300
      · rcases hrd : res.ReadErr with _ | rerr
        · rcases hd : env.unmarshalMember res.Body with derr | m1
          · rw [addMember_decode_error env c h username role res sent derr hu hdo h2 hrd
              hd] at hok
            cases hok
          · rw [addMember_ok env c h username role res sent m1 hu hdo h2 hrd hd]
            exact ⟨rfl, rfl⟩
        · rw [addMember_read_error env c h username role res sent rerr hu hdo h2 hrd] at hok
          cases hok
      · rw [addMember_status env c h username role res sent hu hdo h2] at hok
        cases hok
  · rw [addMember_rejected env c h username role err hu] at hok
    cases hok

/-- A successful `DeleteMember` leaves the client with an unpopulated cache and the heap as
it was. -/
theorem deleteMember_success (env : Env) (c : Client) (h : Heap) (username : String)
    (hok : (c.DeleteMember env h username).result = Except.ok ()) :
    (c.DeleteMember env h username).client = { c with membersCache := none } ∧
      (c.DeleteMember env h username).heap = h := by
  rcases hu : env.urlError (c.buildURL ["members", username]).String with _ | err
  · rcases hdo : c.Do env (c.deleteRequest username) with ⟨r, sent⟩
    rcases r with e | res
    · rw [deleteMember_do_error env c h username e sent hu hdo] at hok
      cases hok
    · by_cases h2 : 200 ≤ res.StatusCode ∧ res.StatusCode < 300
      · rw [deleteMember_ok env c h username res sent hu hdo h2]
        exact ⟨rfl, rfl⟩
      · rw [deleteMember_status env c h username res sent hu hdo h2] at hok
        cases hok
  · rw [deleteMember_rejected env c h username err hu] at hok
    cases hok

/-- Whenever the request can be built, the requests of `AddMember` are those of its call of
`Do`. -/
theorem addMember_sent (env : Env) (c : Client) (h : Heap) (username role : String)
    (hurl : env.urlError (c.buildURL ["members"]).String = none) :
    (c.AddMember env h username role).sent = (c.Do env (c.addRequest username role)).2 := by
  rcases hdo : c.Do env (c.addRequest username role) with ⟨r, sent⟩
  rcases r with e | res
  · rw [addMember_do_error env c h username role e sent hurl hdo]
  · by_cases h2 : 200 ≤ res.StatusCode ∧ res.StatusCode < 300
    · rcases hrd : res.ReadErr with _ | rerr
      · rcases hd : env.unmarshalMember res.Body with derr | m
        · rw [addMember_decode_error env c h username role res sent derr hurl hdo h2 hrd hd]
        · rw [addMember_ok env c h username role res sent m hurl hdo h2 hrd hd]
      · rw [addMember_read_error env c h username role res sent rerr hurl hdo h2 hrd]
    · rw [addMember_status env c h username role res sent hurl hdo h2]

/-- On an unpopulated cache, whenever the request can be built, the requests of `ListMembers`
are those of its call of `Do`. -/
theorem listMembers_miss_sent (env : Env) (c : Client) (h : Heap)
    (hc : c.membersCache = none)
    (hurl : env.urlError (c.buildURL ["members"]).String = none) :
    (c.ListMembers env h).sent = (c.Do env c.listRequest).2 := by
  rcases hdo : c.Do env c.listRequest with ⟨r, sent⟩
  rcases r with e | res
  · rw [listMembers_do_error env c h e sent hc hurl hdo]
  · by_cases h2 : 200 ≤ res.StatusCode ∧ res.StatusCode < 300
    · rcases hrd : res.ReadErr with _ | rerr
      · rcases hd : env.unmarshalMembers res.Body with derr | m
        · rw [listMembers_decode_error env c h res sent derr hc hurl hdo h2 hrd hd]
        · rw [listMembers_ok env c h res sent m hc hurl hdo h2 hrd hd]
      · rw [listMembers_read_error env c h res sent rerr hc hurl hdo h2 hrd]
    · rw [listMembers_status env c h res sent hc hurl hdo h2]

/-- Whenever the request can be built, the requests of `DeleteMember` are those of its call of
`Do`. -/
theorem deleteMember_sent (env : Env) (c : Client) (h : Heap) (username : String)
    (hurl : env.urlError (c.buildURL ["members", username]).String = none) :
    (c.DeleteMember env h username).sent = (c.Do env (c.deleteRequest username)).2 := by
  rcases hdo : c.Do env (c.deleteRequest username) with ⟨r, sent⟩
  rcases r with e | res
  · rw [deleteMember_do_error env c h username e sent hurl hdo]
  · by_cases h2 : 200 ≤ res.StatusCode ∧ res.StatusCode < 300
    · rw [deleteMember_ok env c h username res sent hurl hdo h2]
    · rw [deleteMember_status env c h username res sent hurl hdo h2]

/-- The status error names the decimal status and carries the body text. -/
theorem status_message (env : Env) (code : Int) (body : String) :
    (Error.status code body).Message env
        = "unexpected status code: " ++ toString code ++ ", body: " ++ body ∧
      Contains ((Error.status code body).Message env) (toString code) ∧
      Contains ((Error.status code body).Message env) body := by
  refine ⟨rfl, ⟨"unexpected status code: ", ", body: " ++ body, ?_⟩,
    ⟨"unexpected status code: " ++ toString code ++ ", body: ", "", ?_⟩⟩
  · simp [Error.Message, String.append_assoc]
  · simp [Error.Message]

/-- After `Header.Set`, the name holds exactly the value set. -/
theorem Header.values_set_same (hd : http.Header) (key value : String) :
    http.Header.Values (http.Header.Set hd key value) key = some [value] := by
  simp [http.Header.Values, http.Header.Set, List.lookup]

/-- The entries removed by `Header.Set` do not matter to another name. -/
theorem Header.lookup_filter_ne (hd : http.Header) (key k : String) (hk : k ≠ key) :
    (hd.filter fun kv => decide (kv.1 ≠ key)).lookup k = hd.lookup k := by
  induction hd with
  | nil => rfl
  | cons kv rest ih =>
    obtain ⟨k1, v1⟩ := kv
    by_cases h1 : k1 = key
    · have hne : (k == k1) = false := by
        simp only [beq_eq_false_iff_ne, ne_eq]
        rw [h1]
        exact hk
      simp only [List.filter, h1, ne_eq, not_true_eq_false, decide_False, List.lookup]
      rw [← h1, hne]
      simp only [h1]
      exact ih
    · simp only [List.filter, ne_eq, h1, not_false_eq_true, decide_True, List.lookup]
      rw [ih]

/-- `Header.Set` leaves the values of every other name as they were. -/
theorem Header.values_set_other (hd : http.Header) (key value k : String) (hk : k ≠ key) :
    http.Header.Values (http.Header.Set hd key value) k = http.Header.Values hd k := by
  have hne : (k == key) = false := by
    simp only [beq_eq_false_iff_ne, ne_eq]
    exact hk
  simp only [http.Header.Values, http.Header.Set, List.lookup, hne]
  exact Header.lookup_filter_ne hd key k hk

/-- On a cache hit the returned slice is a copy: whatever the caller assigns to an element of
the returned slice, the elements of the cache's slice stay as they were. -/
theorem listMembers_hit_isolated (env : Env) (c : Client) (h : Heap) (cached : Nat)
    (hc : c.membersCache = some cached) (hlt : cached < h.arrays.length)
    (i : Nat) (v : Option BlogMember) :
    ∃ s, (c.ListMembers env h).result = Except.ok s ∧
      (c.ListMembers env h).client.membersCache = some cached ∧
      ((c.ListMembers env h).heap.assign s i v).elems (some cached)
        = h.elems (some cached) := by
  rw [listMembers_hit env c h cached hc]
  refine ⟨some h.arrays.length, rfl, hc, ?_⟩
  have hne : h.arrays.length ≠ cached := by omega
  simp only [Heap.assign, Heap.elems, List.getD_eq_getElem?_getD]
  rw [List.getElem?_modify_ne _ _ hne, List.getElem?_append_left hlt]

/-- What `Configure` has checked when it constructs a client: the username, the API key and
the blog host are not empty, and the client is the one `NewClient` makes of them and of the
owner (the configured owner, or the username when the owner is null), up to the API host and
the insecure flag. -/
theorem configure_accepted (p : blogMemberProvider) (req : ConfigureRequest) (cl : Client)
    (hcl : (p.Configure req).Client = some cl) :
    req.config.Username.ValueString ≠ "" ∧ req.config.Apikey.ValueString ≠ "" ∧
    req.config.BlogHost.ValueString ≠ "" ∧
    cl.client = newTransport req.config.Username.ValueString req.config.Apikey.ValueString
      p.version ∧
    cl.username = req.config.Username.ValueString ∧
    cl.owner = (if req.config.Owner.IsNull then req.config.Username.ValueString
      else req.config.Owner.ValueString) ∧
    cl.blogHost = req.config.BlogHost.ValueString ∧
    cl.membersCache = none := by
  by_cases h1 : diag.Diagnostics.HasError req.diags = true
  · rw [blogMemberProvider.Configure, if_pos h1] at hcl
    cases hcl
  by_cases h2 : req.config.Username.IsUnknown = true
  · rw [blogMemberProvider.Configure, if_neg h1, if_pos h2] at hcl
    cases hcl
  by_cases h3 : req.config.Username.ValueString = ""
  · rw [blogMemberProvider.Configure, if_neg h1, if_neg h2] at hcl
    simp only [if_pos h3] at hcl
    cases hcl
  by_cases h4 : req.config.Owner.IsUnknown = true
  · rw [blogMemberProvider.Configure, if_neg h1, if_neg h2] at hcl
    simp only [if_neg h3, if_pos h4] at hcl
    cases hcl
  by_cases h5 : req.config.Apikey.IsUnknown = true
  · rw [blogMemberProvider.Configure, if_neg h1, if_neg h2] at hcl
    simp only [if_neg h3, if_neg h4, if_pos h5] at hcl
    cases hcl
  by_cases h6 : req.config.Apikey.ValueString = ""
  · rw [blogMemberProvider.Configure, if_neg h1, if_neg h2] at hcl
    simp only [if_neg h3, if_neg h4, if_neg h5, if_pos h6] at hcl
    cases hcl
  by_cases h7 : req.config.BlogHost.IsUnknown = true
  · rw [blogMemberProvider.Configure, if_neg h1, if_neg h2] at hcl
    simp only [if_neg h3, if_neg h4, if_neg h5, if_neg h6, if_pos h7] at hcl
    cases hcl
  by_cases h8 : req.config.BlogHost.ValueString = ""
  · rw [blogMemberProvider.Configure, if_neg h1, if_neg h2] at hcl
    simp only [if_neg h3, if_neg h4, if_neg h5, if_neg h6, if_neg h7, if_pos h8] at hcl
    cases hcl
  rw [blogMemberProvider.Configure, if_neg h1, if_neg h2] at hcl
  simp only [if_neg h3, if_neg h4, if_neg h5, if_neg h6, if_neg h7, if_neg h8,
    Option.some.injEq] at hcl
  subst hcl
  refine ⟨h3, h6, h8, ?_⟩
  cases hn : req.config.HatenablogHost.IsNull <;> cases ho : req.config.Owner.IsNull <;>
    simp [NewClient, Client.SetHatenablogHost, Client.SetInsecure]

/-- The addressing of the client that `Configure` constructs: with a null `hatenablog_host`
it keeps the API host and the insecure flag of `NewClient`; otherwise the API host is the
configured one and the insecure flag is the configured `insecure`. -/
theorem configure_addressing (p : blogMemberProvider) (req : ConfigureRequest) (cl : Client)
    (hcl : (p.Configure req).Client = some cl) :
    cl.hatenablogHost = (if req.config.HatenablogHost.IsNull then "blog.hatena.ne.jp"
      else req.config.HatenablogHost.ValueString) ∧
    cl.insecure = (if req.config.HatenablogHost.IsNull then false
      else req.config.Insecure.ValueBool) := by
  by_cases h1 : diag.Diagnostics.HasError req.diags = true
  · rw [blogMemberProvider.Configure, if_pos h1] at hcl
    cases hcl
  by_cases h2 : req.config.Username.IsUnknown = true
  · rw [blogMemberProvider.Configure, if_neg h1, if_pos h2] at hcl
    cases hcl
  by_cases h3 : req.config.Username.ValueString = ""
  · rw [blogMemberProvider.Configure, if_neg h1, if_neg h2] at hcl
    simp only [if_pos h3] at hcl
    cases hcl
  by_cases h4 : req.config.Owner.IsUnknown = true
  · rw [blogMemberProvider.Configure, if_neg h1, if_neg h2] at hcl
    simp only [if_neg h3, if_pos h4] at hcl
    cases hcl
  by_cases h5 : req.config.Apikey.IsUnknown = true
  · rw [blogMemberProvider.Configure, if_neg h1, if_neg h2] at hcl
    simp only [if_neg h3, if_neg h4, if_pos h5] at hcl
    cases hcl
  by_cases h6 : req.config.Apikey.ValueString = ""
  · rw [blogMemberProvider.Configure, if_neg h1, if_neg h2] at hcl
    simp only [if_neg h3, if_neg h4, if_neg h5, if_pos h6] at hcl
    cases hcl
  by_cases h7 : req.config.BlogHost.IsUnknown = true
  · rw [blogMemberProvider.Configure, if_neg h1, if_neg h2] at hcl
    simp only [if_neg h3, if_neg h4, if_neg h5, if_neg h6, if_pos h7] at hcl
    cases hcl
  by_cases h8 : req.config.BlogHost.ValueString = ""
  · rw [blogMemberProvider.Configure, if_neg h1, if_neg h2] at hcl
    simp only [if_neg h3, if_neg h4, if_neg h5, if_neg h6, if_neg h7, if_pos h8] at hcl
    cases hcl
  rw [blogMemberProvider.Configure, if_neg h1, if_neg h2] at hcl
  simp only [if_neg h3, if_neg h4, if_neg h5, if_neg h6, if_neg h7, if_neg h8,
    Option.some.injEq] at hcl
  subst hcl
  cases hn : req.config.HatenablogHost.IsNull <;>
    simp [NewClient, Client.SetHatenablogHost, Client.SetInsecure]

/-- C6: no failure of an operation changes the cache.  For every environment, client and
heap, when `AddMember`, `ListMembers` or `DeleteMember` returns an error (the request could not
be built, the transport failed, the status is outside [200,300), the body could not be read or
did not decode), the client, with its cache slice, and the heap holding the cached snapshot are
the same after the call as before. -/
theorem failure_leaves_cache (env : Env) (c : Client) (h : Heap) (username role : String) :
    (∀ e, (c.AddMember env h username role).result = Except.error e →
      (c.AddMember env h username role).client = c ∧
      (c.AddMember env h username role).heap = h) ∧
    (∀ e, (c.ListMembers env h).result = Except.error e →
      (c.ListMembers env h).client = c ∧ (c.ListMembers env h).heap = h) ∧
    (∀ e, (c.DeleteMember env h username).result = Except.error e →
      (c.DeleteMember env h username).client = c ∧
      (c.DeleteMember env h username).heap = h) := by
  refine ⟨?_, ?_, ?_⟩
  · intro e he
    rcases hu : env.urlError (c.buildURL ["members"]).String with _ | err
    · rcases hdo : c.Do env (c.addRequest username role) with ⟨r, sent⟩
      rcases r with e1 | res
      · rw [addMember_do_error env c h username role e1 sent hu hdo]
        exact ⟨rfl, rfl⟩
      · by_cases h2 : 200 ≤ res.StatusCode ∧ res.StatusCode < 300
        · rcases hrd : res.ReadErr with _ | rerr
          · rcases hd : env.unmarshalMember res.Body with derr | m
            · rw [addMember_decode_error env c h username role res sent derr hu hdo h2 hrd hd]
              exact ⟨rfl, rfl⟩
            · rw [addMember_ok env c h username role res sent m hu hdo h2 hrd hd] at he
              cases he
          · rw [addMember_read_error env c h username role res sent rerr hu hdo h2 hrd]
            exact ⟨rfl, rfl⟩
        · rw [addMember_status env c h username role res sent hu hdo h2]
          exact ⟨rfl, rfl⟩
    · rw [addMember_rejected env c h username role err hu]
      exact ⟨rfl, rfl⟩
  · intro e he
    rcases hc : c.membersCache with _ | cached
    · rcases hu : env.urlError (c.buildURL ["members"]).String with _ | err
      · rcases hdo : c.Do env c.listRequest with ⟨r, sent⟩
        rcases r with e1 | res
        · rw [listMembers_do_error env c h e1 sent hc hu hdo]
          exact ⟨rfl, rfl⟩
        · by_cases h2 : 200 ≤ res.StatusCode ∧ res.StatusCode < 300
          · rcases hrd : res.ReadErr with _ | rerr
            · rcases hd : env.unmarshalMembers res.Body with derr | m
              · rw [listMembers_decode_error env c h res sent derr hc hu hdo h2 hrd hd]
                exact ⟨rfl, rfl⟩
              · rw [listMembers_ok env c h res sent m hc hu hdo h2 hrd hd] at he
                cases he
            · rw [listMembers_read_error env c h res sent rerr hc hu hdo h2 hrd]
              exact ⟨rfl, rfl⟩
          · rw [listMembers_status env c h res sent hc hu hdo h2]
            exact ⟨rfl, rfl⟩
      · rw [listMembers_rejected env c h err hc hu]
        exact ⟨rfl, rfl⟩
    · rw [listMembers_hit env c h cached hc] at he
      cases he
  · intro e he
    rcases hu : env.urlError (c.buildURL ["members", username]).String with _ | err
    · rcases hdo : c.Do env (c.deleteRequest username) with ⟨r, sent⟩
      rcases r with e1 | res
      · rw [deleteMember_do_error env c h username e1 sent hu hdo]
        exact ⟨rfl, rfl⟩
      · by_cases h2 : 200 ≤ res.StatusCode ∧ res.StatusCode < 300
        · rw [deleteMember_ok env c h username res sent hu hdo h2] at he
          cases he
        · rw [deleteMember_status env c h username res sent hu hdo h2]
          exact ⟨rfl, rfl⟩
    · rw [deleteMember_rejected env c h username err hu]
      exact ⟨rfl, rfl⟩

/-- The witness of `failure_leaves_cache`: with a populated cache and the answer 404
`not found`, `AddMember` and `DeleteMember` fail and leave client and heap as they were; on an
unpopulated cache a failing `ListMembers` does so as well. -/
theorem failure_leaves_cache_witness :
    ((cachedClient.AddMember (exampleEnv (Except.ok notFound)) exampleHeap "alice"
        "editor").result = Except.error (Error.status 404 "not found") ∧
      (cachedClient.AddMember (exampleEnv (Except.ok notFound)) exampleHeap "alice"
        "editor").client = cachedClient ∧
      (cachedClient.AddMember (exampleEnv (Except.ok notFound)) exampleHeap "alice"
        "editor").heap = exampleHeap) ∧
    ((exampleClient.ListMembers (exampleEnv (Except.ok notFound)) exampleHeap).result
        = Except.error (Error.status 404 "not found") ∧
      (exampleClient.ListMembers (exampleEnv (Except.ok notFound)) exampleHeap).client
        = exampleClient ∧
      (exampleClient.ListMembers (exampleEnv (Except.ok notFound)) exampleHeap).heap
        = exampleHeap) ∧
    ((cachedClient.DeleteMember (exampleEnv (Except.ok notFound)) exampleHeap "alice").result
        = Except.error (Error.status 404 "not found") ∧
      (cachedClient.DeleteMember (exampleEnv (Except.ok notFound)) exampleHeap "alice").client
        = cachedClient ∧
      (cachedClient.DeleteMember (exampleEnv (Except.ok notFound)) exampleHeap "alice").heap
        = exampleHeap) :=
  ⟨⟨rfl, (failure_leaves_cache (exampleEnv (Except.ok notFound)) cachedClient exampleHeap
      "alice" "editor").1 _ rfl⟩,
   ⟨rfl, (failure_leaves_cache (exampleEnv (Except.ok notFound)) exampleClient exampleHeap
      "alice" "editor").2.1 _ rfl⟩,
   ⟨rfl, (failure_leaves_cache (exampleEnv (Except.ok notFound)) cachedClient exampleHeap
      "alice" "editor").2.2 _ rfl⟩⟩

/-- C2: for every cache state, after a successful `AddMember` and after a successful
`DeleteMember` the member cache is unpopulated, and the next `ListMembers` (in any environment
that lets the request be built) goes to the network: the first request it hands to the
transport is the GET of the members endpoint, and when the answer to it is a 2xx response
whose body decodes to a member list, that GET is its only request and it returns the decoded
list rather than a cached snapshot. -/
theorem mutation_clears_cache (env env2 : Env) (c : Client) (h : Heap)
    (username role : String) :
    (∀ m, (c.AddMember env h username role).result = Except.ok m →
      (c.AddMember env h username role).client.membersCache = none ∧
      (env2.urlError (c.buildURL ["members"]).String = none →
        (∃ rest, ((c.AddMember env h username role).client.ListMembers env2
            (c.AddMember env h username role).heap).sent
          = c.client.prepare c.listRequest :: rest) ∧
        ∀ res members, env2.wsse c.client.Transport (c.client.prepare c.listRequest)
            = Except.ok res →
          200 ≤ res.StatusCode ∧ res.StatusCode < 300 → res.ReadErr = none →
          env2.unmarshalMembers res.Body = Except.ok members →
          ((c.AddMember env h username role).client.ListMembers env2
              (c.AddMember env h username role).heap).sent
            = [c.client.prepare c.listRequest] ∧
          ∃ s, ((c.AddMember env h username role).client.ListMembers env2
              (c.AddMember env h username role).heap).result = Except.ok s ∧
            ((c.AddMember env h username role).client.ListMembers env2
              (c.AddMember env h username role).heap).heap.elems s = members)) ∧
    ((c.DeleteMember env h username).result = Except.ok () →
      (c.DeleteMember env h username).client.membersCache = none ∧
      (env2.urlError (c.buildURL ["members"]).String = none →
        (∃ rest, ((c.DeleteMember env h username).client.ListMembers env2
            (c.DeleteMember env h username).heap).sent
          = c.client.prepare c.listRequest :: rest) ∧
        ∀ res members, env2.wsse c.client.Transport (c.client.prepare c.listRequest)
            = Except.ok res →
          200 ≤ res.StatusCode ∧ res.StatusCode < 300 → res.ReadErr = none →
          env2.unmarshalMembers res.Body = Except.ok members →
          ((c.DeleteMember env h username).client.ListMembers env2
              (c.DeleteMember env h username).heap).sent
            = [c.client.prepare c.listRequest] ∧
          ∃ s, ((c.DeleteMember env h username).client.ListMembers env2
              (c.DeleteMember env h username).heap).result = Except.ok s ∧
            ((c.DeleteMember env h username).client.ListMembers env2
              (c.DeleteMember env h username).heap).heap.elems s = members)) := by
  have key : ∀ (c1 : Client) (h1 : Heap), c1 = { c with membersCache := none } → h1 = h →
      c1.membersCache = none ∧
      (env2.urlError (c.buildURL ["members"]).String = none →
        (∃ rest, (c1.ListMembers env2 h1).sent = c.client.prepare c.listRequest :: rest) ∧
        ∀ res members, env2.wsse c.client.Transport (c.client.prepare c.listRequest)
            = Except.ok res →
          200 ≤ res.StatusCode ∧ res.StatusCode < 300 → res.ReadErr = none →
          env2.unmarshalMembers res.Body = Except.ok members →
          (c1.ListMembers env2 h1).sent = [c.client.prepare c.listRequest] ∧
          ∃ s, (c1.ListMembers env2 h1).result = Except.ok s ∧
            (c1.ListMembers env2 h1).heap.elems s = members) := by
    intro c1 h1 hc1 hh1
    have hcache : c1.membersCache = none := by rw [hc1]
    have hcl : c1.client = c.client := by rw [hc1]
    have hb : c1.buildURL ["members"] = c.buildURL ["members"] := by rw [hc1]; rfl
    have hlr : c1.listRequest = c.listRequest := by rw [hc1]; rfl
    refine ⟨hcache, fun hurl => ?_⟩
    rw [← hb] at hurl
    rw [← hcl, ← hlr]
    refine ⟨?_, ?_⟩
    · rw [listMembers_miss_sent env2 c1 h1 hcache hurl]
      exact do_sent env2 c1 c1.listRequest
    · intro res members hres h2 hrd hd
      have hdo := do_final env2 c1 c1.listRequest res hres
        (followsRedirect_of_2xx _ _ res h2)
      rw [listMembers_ok env2 c1 h1 res _ members hcache hurl hdo h2 hrd hd]
      exact ⟨rfl, some h1.arrays.length, rfl, Heap.elems_new h1.arrays members⟩
  refine ⟨fun m hok => ?_, fun hok => ?_⟩
  · exact key _ _ (addMember_success env c h username role m hok).1
      (addMember_success env c h username role m hok).2
  · exact key _ _ (deleteMember_success env c h username hok).1
      (deleteMember_success env c h username hok).2

/-- The witness of `mutation_clears_cache`: with the snapshot `bob` cached, `AddMember`
answered by 201 and `DeleteMember` answered by 200 both succeed, the cache is then
unpopulated, and the next `ListMembers` sends one request and returns the list with `alice`
that the server answers. -/
theorem mutation_clears_cache_witness :
    ((cachedClient.AddMember (exampleEnv (Except.ok createdAlice)) exampleHeap "alice"
        "editor").result = Except.ok { Username := "alice", Role := "editor" } ∧
      (cachedClient.AddMember (exampleEnv (Except.ok createdAlice)) exampleHeap "alice"
        "editor").client.membersCache = none ∧
      ((cachedClient.AddMember (exampleEnv (Except.ok createdAlice)) exampleHeap "alice"
          "editor").client.ListMembers (exampleEnv (Except.ok listAlice))
          (cachedClient.AddMember (exampleEnv (Except.ok createdAlice)) exampleHeap "alice"
          "editor").heap).sent = [cachedClient.client.prepare cachedClient.listRequest]) ∧
    ((cachedClient.DeleteMember (exampleEnv (Except.ok okEmpty)) exampleHeap "bob").result
        = Except.ok () ∧
      (cachedClient.DeleteMember (exampleEnv (Except.ok okEmpty)) exampleHeap
        "bob").client.membersCache = none ∧
      ∃ s, ((cachedClient.DeleteMember (exampleEnv (Except.ok okEmpty)) exampleHeap
          "bob").client.ListMembers (exampleEnv (Except.ok listAlice))
          (cachedClient.DeleteMember (exampleEnv (Except.ok okEmpty)) exampleHeap
          "bob").heap).result = Except.ok s ∧
        ((cachedClient.DeleteMember (exampleEnv (Except.ok okEmpty)) exampleHeap
          "bob").client.ListMembers (exampleEnv (Except.ok listAlice))
          (cachedClient.DeleteMember (exampleEnv (Except.ok okEmpty)) exampleHeap
          "bob").heap).heap.elems s = [some { Username := "alice", Role := "editor" }]) :=
  ⟨⟨rfl,
    ((mutation_clears_cache (exampleEnv (Except.ok createdAlice))
      (exampleEnv (Except.ok listAlice)) cachedClient exampleHeap "alice" "editor").1 _ rfl).1,
    ((((mutation_clears_cache (exampleEnv (Except.ok createdAlice))
      (exampleEnv (Except.ok listAlice)) cachedClient exampleHeap "alice" "editor").1 _ rfl).2
      rfl).2 listAlice _ rfl (by decide) rfl rfl).1⟩,
   ⟨rfl,
    ((mutation_clears_cache (exampleEnv (Except.ok okEmpty))
      (exampleEnv (Except.ok listAlice)) cachedClient exampleHeap "bob" "").2 rfl).1,
    ((((mutation_clears_cache (exampleEnv (Except.ok okEmpty))
      (exampleEnv (Except.ok listAlice)) cachedClient exampleHeap "bob" "").2 rfl).2
      rfl).2 listAlice _ rfl (by decide) rfl rfl).2⟩⟩

/-- C3: on a client whose cache is unpopulated (a fresh client), for every 2xx response whose
body decodes to a member list of any length, two calls of `ListMembers` in succession hand
exactly one request to the transport between them, whatever the environment of the second
call; both calls succeed, and the second returns a sequence equal to the first, which is the
decoded list (the first sequence is unchanged by the second call). -/
theorem listMembers_twice (env env2 : Env) (c : Client) (h : Heap) (res : http.Response)
    (members : List (Option BlogMember))
    (hc : c.membersCache = none)
    (hurl : env.urlError (c.buildURL ["members"]).String = none)
    (hres : env.wsse c.client.Transport (c.client.prepare c.listRequest) = Except.ok res)
    (h2 : 200 ≤ res.StatusCode ∧ res.StatusCode < 300) (hrd : res.ReadErr = none)
    (hd : env.unmarshalMembers res.Body = Except.ok members) :
    ∃ s1 s2,
      (c.ListMembers env h).result = Except.ok s1 ∧
      ((c.ListMembers env h).client.ListMembers env2 (c.ListMembers env h).heap).result
        = Except.ok s2 ∧
      ((c.ListMembers env h).sent ++
        ((c.ListMembers env h).client.ListMembers env2 (c.ListMembers env h).heap).sent)
        = [c.client.prepare c.listRequest] ∧
      (c.ListMembers env h).heap.elems s1 = members ∧
      ((c.ListMembers env h).client.ListMembers env2 (c.ListMembers env h).heap).heap.elems s2
        = (c.ListMembers env h).heap.elems s1 ∧
      ((c.ListMembers env h).client.ListMembers env2 (c.ListMembers env h).heap).heap.elems s1
        = (c.ListMembers env h).heap.elems s1 := by
  have hdo := do_final env c c.listRequest res hres (followsRedirect_of_2xx _ _ res h2)
  rw [listMembers_ok env c h res _ members hc hurl hdo h2 hrd hd]
  simp only []
  rw [listMembers_hit env2 _ _ h.arrays.length rfl]
  refine ⟨some h.arrays.length, some (h.arrays ++ [members]).length, rfl, rfl, rfl, ?_, ?_, ?_⟩
  · exact Heap.elems_new h.arrays members
  · exact Heap.elems_new (h.arrays ++ [members]) _
  · exact Heap.elems_old (h.arrays ++ [members]) _ h.arrays.length (by simp)

/-- The witness of `listMembers_twice`: a fresh client and the answer 200 with the empty
member list; the first call sends the request, the second sends nothing, and both return the
empty sequence. -/
theorem listMembers_twice_witness :
    exampleClient.membersCache = none ∧
    ∃ s1 s2,
      (exampleClient.ListMembers (exampleEnv (Except.ok listEmpty)) exampleHeap).result
        = Except.ok s1 ∧
      ((exampleClient.ListMembers (exampleEnv (Except.ok listEmpty)) exampleHeap).client.ListMembers
        rejectingEnv
        (exampleClient.ListMembers (exampleEnv (Except.ok listEmpty)) exampleHeap).heap).result
        = Except.ok s2 ∧
      ((exampleClient.ListMembers (exampleEnv (Except.ok listEmpty)) exampleHeap).sent ++
        ((exampleClient.ListMembers (exampleEnv (Except.ok listEmpty))
          exampleHeap).client.ListMembers rejectingEnv
          (exampleClient.ListMembers (exampleEnv (Except.ok listEmpty))
          exampleHeap).heap).sent)
        = [exampleClient.client.prepare exampleClient.listRequest] ∧
      (exampleClient.ListMembers (exampleEnv (Except.ok listEmpty)) exampleHeap).heap.elems s1
        = [] ∧
      ((exampleClient.ListMembers (exampleEnv (Except.ok listEmpty)) exampleHeap).client.ListMembers
        rejectingEnv
        (exampleClient.ListMembers (exampleEnv (Except.ok listEmpty))
          exampleHeap).heap).heap.elems s2
        = (exampleClient.ListMembers (exampleEnv (Except.ok listEmpty))
            exampleHeap).heap.elems s1 ∧
      ((exampleClient.ListMembers (exampleEnv (Except.ok listEmpty)) exampleHeap).client.ListMembers
        rejectingEnv
        (exampleClient.ListMembers (exampleEnv (Except.ok listEmpty))
          exampleHeap).heap).heap.elems s1
        = (exampleClient.ListMembers (exampleEnv (Except.ok listEmpty))
            exampleHeap).heap.elems s1 :=
  ⟨rfl, listMembers_twice (exampleEnv (Except.ok listEmpty)) rejectingEnv exampleClient
    exampleHeap listEmpty [] rfl rfl rfl (by decide) rfl rfl⟩

/-- C9: for every request and every version, `RoundTrip` returns what the wrapped signing
transport returns (response or error) for a request that has the same method, URL and body as
the given one, whose User-Agent header is exactly
`terraform-provider-hatenablog-members/<version> (+https://github.com/hatena/terraform-provider-hatenablog-members)`
and whose other headers are those of the given request. -/
theorem roundTrip_spec (env : Env) (t : transport) (req : http.Request) :
    t.RoundTrip env req = env.wsse t.Transport (t.prepare req) ∧
    (t.prepare req).Method = req.Method ∧
    (t.prepare req).URL = req.URL ∧
    (t.prepare req).Body = req.Body ∧
    (t.prepare req).Header.Values "User-Agent"
      = some ["terraform-provider-hatenablog-members/" ++ t.version ++
          " (+https://github.com/hatena/terraform-provider-hatenablog-members)"] ∧
    ∀ k : String, k ≠ "User-Agent" →
      (t.prepare req).Header.Values k = req.Header.Values k :=
  ⟨rfl, rfl, rfl, rfl, Header.values_set_same req.Header "User-Agent" t.ua,
    fun k hk => Header.values_set_other req.Header "User-Agent" t.ua k hk⟩

/-- The witness of `roundTrip_spec`: on the POST request of `AddMember`, which carries a
Content-Type header, the transport of version `test` keeps the Content-Type header and sets
the User-Agent header. -/
theorem roundTrip_spec_witness :
    ((newTransport "username" "apikey" "test").prepare
        (exampleClient.addRequest "alice" "editor")).Header.Values "Content-Type"
      = some ["application/json"] ∧
    ((newTransport "username" "apikey" "test").prepare
        (exampleClient.addRequest "alice" "editor")).Header.Values "User-Agent"
      = some ["terraform-provider-hatenablog-members/test (+https://github.com/hatena/terraform-provider-hatenablog-members)"] :=
  ⟨((roundTrip_spec (exampleEnv (Except.ok okEmpty)) (newTransport "username" "apikey" "test")
      (exampleClient.addRequest "alice" "editor")).2.2.2.2.2 "Content-Type"
      (by decide)).trans (by decide),
   by decide⟩

/-- C4, on the code: the slice that `ListMembers` returns from the fetch that populates the
cache is the cache's own slice.  On a fresh client answered by the list with `alice`, the
first call returns the slice stored in the cache; after the caller overwrites element 0 of
that slice with `mallory`, the next call, served from the cache, returns `mallory` and not
`alice`. -/
theorem listMembers_miss_returns_cache_storage :
    ∃ s1 s2,
      (exampleClient.ListMembers (exampleEnv (Except.ok listAlice)) exampleHeap).result
        = Except.ok s1 ∧
      (exampleClient.ListMembers (exampleEnv (Except.ok listAlice)) exampleHeap).client.membersCache
        = s1 ∧
      (exampleClient.ListMembers (exampleEnv (Except.ok listAlice)) exampleHeap).heap.elems s1
        = [some { Username := "alice", Role := "editor" }] ∧
      ((exampleClient.ListMembers (exampleEnv (Except.ok listAlice)) exampleHeap).client.ListMembers
        rejectingEnv
        ((exampleClient.ListMembers (exampleEnv (Except.ok listAlice)) exampleHeap).heap.assign
          s1 0 (some mallory))).result = Except.ok s2 ∧
      ((exampleClient.ListMembers (exampleEnv (Except.ok listAlice)) exampleHeap).client.ListMembers
        rejectingEnv
        ((exampleClient.ListMembers (exampleEnv (Except.ok listAlice)) exampleHeap).heap.assign
          s1 0 (some mallory))).sent = [] ∧
      ((exampleClient.ListMembers (exampleEnv (Except.ok listAlice)) exampleHeap).client.ListMembers
        rejectingEnv
        ((exampleClient.ListMembers (exampleEnv (Except.ok listAlice)) exampleHeap).heap.assign
          s1 0 (some mallory))).heap.elems s2 = [some mallory] :=
  ⟨some 1, some 2, rfl, rfl, rfl, rfl, rfl, rfl⟩

/-- C10, on the code: `Configure` checks the username, the API key and the blog host for the
empty string but not the owner.  With `owner` set to the empty string and the other three
values non-empty it reports no diagnostic and constructs a client whose owner is empty. -/
theorem configure_accepts_empty_owner :
    (blogMemberProvider.mk "test").Configure { diags := [], config := emptyOwnerConfig }
      = { Diagnostics := [],
          Client := some (NewClient "test" "username" "apikey" "" "blog.example.com") } := by
  decide

/-- C11: `Configure` sets the insecure flag only together with the API host.  For every
configuration it accepts: when `hatenablog_host` is null (not specified), the client keeps
`insecure = false` and the default API host `blog.hatena.ne.jp`, so every URL it builds has
the scheme `https`, whatever `insecure` is configured; when `hatenablog_host` is not null, the
client's API host is its value and the insecure flag is the value of `insecure`, which is
false when `insecure` is null. -/
theorem configure_insecure_needs_host (p : blogMemberProvider) (req : ConfigureRequest)
    (cl : Client) (hcl : (p.Configure req).Client = some cl) :
    (req.config.HatenablogHost.IsNull = true →
      cl.insecure = false ∧ cl.hatenablogHost = "blog.hatena.ne.jp" ∧
      ∀ segs : List String, (cl.buildURL segs).Scheme = "https" ∧
        (cl.buildURL segs).Host = "blog.hatena.ne.jp") ∧
    (req.config.HatenablogHost.IsNull = false →
      cl.hatenablogHost = req.config.HatenablogHost.ValueString ∧
      cl.insecure = req.config.Insecure.ValueBool ∧
      (req.config.Insecure = basetypes.BoolValue.null → cl.insecure = false)) := by
  obtain ⟨hhost, hins⟩ := configure_addressing p req cl hcl
  refine ⟨fun hn => ?_, fun hn => ?_⟩
  · rw [hn, if_pos rfl] at hhost hins
    refine ⟨hins, hhost, fun segs => ⟨?_, ?_⟩⟩
    · show (if cl.insecure then "http" else "https") = "https"
      rw [hins]
      rfl
    · exact hhost
  · rw [hn] at hhost hins
    refine ⟨hhost, hins, fun hnull => ?_⟩
    rw [hins, hnull]
    rfl

/-- The witness of `configure_insecure_needs_host`: the configuration with `insecure = true`
and no `hatenablog_host` is accepted and gives a client with `insecure = false` that builds
the `https` URL of the production host; with `hatenablog_host = localhost:8080` the client has
that host and `insecure = true`, and `insecure = false` when `insecure` is left unset. -/
theorem configure_insecure_needs_host_witness :
    (((blogMemberProvider.mk "test").Configure
        { diags := [], config := insecureOnlyConfig }).Client
        = some (NewClient "test" "username" "apikey" "username" "blog.example.com") ∧
      (NewClient "test" "username" "apikey" "username" "blog.example.com").insecure = false ∧
      ((NewClient "test" "username" "apikey" "username" "blog.example.com").buildURL
        ["members"]).Scheme = "https") ∧
    (((blogMemberProvider.mk "test").Configure
        { diags := [], config := localHostConfig }).Client
        = some (((NewClient "test" "username" "apikey" "username"
            "blog.example.com").SetHatenablogHost "localhost:8080").SetInsecure true) ∧
      (((NewClient "test" "username" "apikey" "username"
        "blog.example.com").SetHatenablogHost "localhost:8080").SetInsecure
        true).hatenablogHost = "localhost:8080" ∧
      (((NewClient "test" "username" "apikey" "username"
        "blog.example.com").SetHatenablogHost "localhost:8080").SetInsecure
        true).insecure = true) ∧
    (((blogMemberProvider.mk "test").Configure
        { diags := [], config := hostOnlyConfig }).Client
        = some (((NewClient "test" "username" "apikey" "username"
            "blog.example.com").SetHatenablogHost "localhost:8080").SetInsecure false) ∧
      (((NewClient "test" "username" "apikey" "username"
        "blog.example.com").SetHatenablogHost "localhost:8080").SetInsecure
        false).insecure = false) :=
  ⟨⟨by decide,
    ((configure_insecure_needs_host (blogMemberProvider.mk "test")
      { diags := [], config := insecureOnlyConfig } _ (by decide)).1 rfl).1,
    (((configure_insecure_needs_host (blogMemberProvider.mk "test")
      { diags := [], config := insecureOnlyConfig } _ (by decide)).1 rfl).2.2
      ["members"]).1⟩,
   ⟨by decide,
    ((configure_insecure_needs_host (blogMemberProvider.mk "test")
      { diags := [], config := localHostConfig } _ (by decide)).2 rfl).1,
    ((configure_insecure_needs_host (blogMemberProvider.mk "test")
      { diags := [], config := localHostConfig } _ (by decide)).2 rfl).2.1⟩,
   ⟨by decide,
    ((configure_insecure_needs_host (blogMemberProvider.mk "test")
      { diags := [], config := hostOnlyConfig } _ (by decide)).2 rfl).2.2 rfl⟩⟩

/-- C5 as stated fails: a response with a status outside [200,300) that is a redirect with a
`Location` is followed by `http.Client`, not reported.  `DeleteMember` whose request is
answered by 302 with body `moved` and a `Location`, the request to that location being
answered by 200, returns no error after two requests and clears the cache. -/
theorem deleteMember_follows_redirect :
    (redirectingEnv movedElsewhere okEmpty).wsse cachedClient.client.Transport
        (cachedClient.client.prepare (cachedClient.deleteRequest "member"))
      = Except.ok movedElsewhere ∧
    movedElsewhere.StatusCode = 302 ∧ movedElsewhere.Body = "moved" ∧
    (cachedClient.DeleteMember (redirectingEnv movedElsewhere okEmpty) exampleHeap
      "member").result = Except.ok () ∧
    (cachedClient.DeleteMember (redirectingEnv movedElsewhere okEmpty) exampleHeap
      "member").client.membersCache = none ∧
    (cachedClient.DeleteMember (redirectingEnv movedElsewhere okEmpty) exampleHeap
      "member").sent.map (fun req => (req.Method, req.URL))
      = [("DELETE", "https://blog.hatena.ne.jp/owner/blog.example.com/api/members/member"),
         ("GET", "https://blog.hatena.ne.jp/elsewhere")] := by
  refine ⟨rfl, rfl, rfl, rfl, rfl, ?_⟩
  decide

/-- C5, amended: for `AddMember`, `ListMembers` on an unpopulated cache and `DeleteMember`,
whenever the request of the operation can be built, and for every response `res` that
`http.Client` returns to the operation: when the status is outside [200,300) the operation
returns the status error, whose message contains the decimal status and the body text as read;
when the status is in [200,300), `AddMember` and `ListMembers` return no status error and
`DeleteMember` returns no error.  The response that `http.Client` returns is the answer to the
request of the operation whenever that answer is no redirect to follow, that is, whenever its
status is none of 301, 302, 303, 307 and 308 or it has no `Location` header. -/
theorem status_interpretation (env : Env) (c : Client) (h : Heap) (username role : String)
    (res : http.Response) (sent : List http.Request) :
    (env.urlError (c.buildURL ["members"]).String = none →
      c.Do env (c.addRequest username role) = (Except.ok res, sent) →
      (¬(200 ≤ res.StatusCode ∧ res.StatusCode < 300) →
        ∃ e, (c.AddMember env h username role).result = Except.error e ∧
          Contains (e.Message env) (toString res.StatusCode) ∧
          Contains (e.Message env) res.Body) ∧
      (200 ≤ res.StatusCode ∧ res.StatusCode < 300 →
        ∀ e, (c.AddMember env h username role).result = Except.error e →
          e.isStatus = false)) ∧
    (c.membersCache = none → env.urlError (c.buildURL ["members"]).String = none →
      c.Do env c.listRequest = (Except.ok res, sent) →
      (¬(200 ≤ res.StatusCode ∧ res.StatusCode < 300) →
        ∃ e, (c.ListMembers env h).result = Except.error e ∧
          Contains (e.Message env) (toString res.StatusCode) ∧
          Contains (e.Message env) res.Body) ∧
      (200 ≤ res.StatusCode ∧ res.StatusCode < 300 →
        ∀ e, (c.ListMembers env h).result = Except.error e → e.isStatus = false)) ∧
    (env.urlError (c.buildURL ["members", username]).String = none →
      c.Do env (c.deleteRequest username) = (Except.ok res, sent) →
      (¬(200 ≤ res.StatusCode ∧ res.StatusCode < 300) →
        ∃ e, (c.DeleteMember env h username).result = Except.error e ∧
          Contains (e.Message env) (toString res.StatusCode) ∧
          Contains (e.Message env) res.Body) ∧
      (200 ≤ res.StatusCode ∧ res.StatusCode < 300 →
        (c.DeleteMember env h username).result = Except.ok ())) ∧
    (∀ req : http.Request,
      env.wsse c.client.Transport (c.client.prepare req) = Except.ok res →
      (¬(res.StatusCode = 301 ∨ res.StatusCode = 302 ∨ res.StatusCode = 303 ∨
          res.StatusCode = 307 ∨ res.StatusCode = 308) ∨
        res.Header.Get "Location" = "") →
      c.Do env req = (Except.ok res, [c.client.prepare req])) := by
  refine ⟨fun hu hdo => ⟨fun h2 => ?_, fun h2 e he => ?_⟩,
    fun hc hu hdo => ⟨fun h2 => ?_, fun h2 e he => ?_⟩,
    fun hu hdo => ⟨fun h2 => ?_, fun h2 => ?_⟩, fun req hres hno => ?_⟩
  · rw [addMember_status env c h username role res sent hu hdo h2]
    exact ⟨_, rfl, (status_message env _ _).2⟩
  · rcases hrd : res.ReadErr with _ | rerr
    · rcases hd : env.unmarshalMember res.Body with derr | m
      · rw [addMember_decode_error env c h username role res sent derr hu hdo h2 hrd hd] at he
        cases he
        rfl
      · rw [addMember_ok env c h username role res sent m hu hdo h2 hrd hd] at he
        cases he
    · rw [addMember_read_error env c h username role res sent rerr hu hdo h2 hrd] at he
      cases he
      rfl
  · rw [listMembers_status env c h res sent hc hu hdo h2]
    exact ⟨_, rfl, (status_message env _ _).2⟩
  · rcases hrd : res.ReadErr with _ | rerr
    · rcases hd : env.unmarshalMembers res.Body with derr | m
      · rw [listMembers_decode_error env c h res sent derr hc hu hdo h2 hrd hd] at he
        cases he
        rfl
      · rw [listMembers_ok env c h res sent m hc hu hdo h2 hrd hd] at he
        cases he
    · rw [listMembers_read_error env c h res sent rerr hc hu hdo h2 hrd] at he
      cases he
      rfl
  · rw [deleteMember_status env c h username res sent hu hdo h2]
    exact ⟨_, rfl, (status_message env _ _).2⟩
  · rw [deleteMember_ok env c h username res sent hu hdo h2]
  · refine do_final env c req res hres ?_
    rcases hno with hno | hno
    · exact followsRedirect_of_status req req res (fun h => hno (by omega))
        (fun h => hno (by omega))
    · exact followsRedirect_of_no_location req req res hno

/-- The witness of `status_interpretation`: the answer 404 with body `not found`, which is no
redirect, is the response that `http.Client` returns, and it makes each operation return an
error whose message contains `404` and `not found`; the answer 200 makes `DeleteMember`
return no error. -/
theorem status_interpretation_witness :
    exampleClient.Do (exampleEnv (Except.ok notFound)) (exampleClient.deleteRequest "alice")
      = (Except.ok notFound,
          [exampleClient.client.prepare (exampleClient.deleteRequest "alice")]) ∧
    (∃ e, (exampleClient.AddMember (exampleEnv (Except.ok notFound)) exampleHeap "alice"
        "editor").result = Except.error e ∧
      Contains (e.Message (exampleEnv (Except.ok notFound))) "404" ∧
      Contains (e.Message (exampleEnv (Except.ok notFound))) "not found") ∧
    (∃ e, (exampleClient.ListMembers (exampleEnv (Except.ok notFound)) exampleHeap).result
        = Except.error e ∧
      Contains (e.Message (exampleEnv (Except.ok notFound))) "404" ∧
      Contains (e.Message (exampleEnv (Except.ok notFound))) "not found") ∧
    (∃ e, (exampleClient.DeleteMember (exampleEnv (Except.ok notFound)) exampleHeap
        "alice").result = Except.error e ∧
      Contains (e.Message (exampleEnv (Except.ok notFound))) "404" ∧
      Contains (e.Message (exampleEnv (Except.ok notFound))) "not found") ∧
    (exampleClient.DeleteMember (exampleEnv (Except.ok okEmpty)) exampleHeap "alice").result
      = Except.ok () ∧
    (∀ e, (exampleClient.AddMember (exampleEnv (Except.ok okEmpty)) exampleHeap "alice"
        "editor").result = Except.error e → e.isStatus = false) :=
  ⟨(status_interpretation (exampleEnv (Except.ok notFound)) exampleClient exampleHeap "alice"
      "editor" notFound []).2.2.2 _ rfl (Or.inl (by decide)),
   ((status_interpretation (exampleEnv (Except.ok notFound)) exampleClient exampleHeap "alice"
      "editor" notFound _).1 rfl rfl).1 (by decide),
   ((status_interpretation (exampleEnv (Except.ok notFound)) exampleClient exampleHeap "alice"
      "editor" notFound _).2.1 rfl rfl rfl).1 (by decide),
   ((status_interpretation (exampleEnv (Except.ok notFound)) exampleClient exampleHeap "alice"
      "editor" notFound _).2.2.1 rfl rfl).1 (by decide),
   ((status_interpretation (exampleEnv (Except.ok okEmpty)) exampleClient exampleHeap "alice"
      "editor" okEmpty _).2.2.1 rfl rfl).2 (by decide),
   ((status_interpretation (exampleEnv (Except.ok okEmpty)) exampleClient exampleHeap "alice"
      "editor" okEmpty _).1 rfl rfl).2 (by decide)⟩

/-- C8 as stated fails in two ways.  When `http.NewRequest` rejects the URL, here for the API
host `a b`, `AddMember` sends no request at all; and when the POST is answered by 307 with a
`Location`, `http.Client` sends the POST again to that location, so two requests are sent. -/
theorem addMember_not_one_post :
    ((spaceHostClient.buildURL ["members"]).String
        = "https://a%20b/owner/blog.example.com/api/members" ∧
      (spaceHostClient.AddMember strictEnv exampleHeap "alice" "editor").sent = [] ∧
      (spaceHostClient.AddMember strictEnv exampleHeap "alice" "editor").result
        = Except.error (Error.request ("parse \"https://a%20b/owner/blog.example.com/api/members\": " ++
            "invalid URL escape \"%20\""))) ∧
    ((exampleClient.AddMember (redirectingEnv temporaryRedirect createdAlice) exampleHeap
        "alice" "editor").sent.map (fun req => (req.Method, req.URL))
      = [("POST", "https://blog.hatena.ne.jp/owner/blog.example.com/api/members"),
         ("POST", "https://blog.hatena.ne.jp/elsewhere")] ∧
      (exampleClient.AddMember (redirectingEnv temporaryRedirect createdAlice) exampleHeap
        "alice" "editor").result = Except.ok { Username := "alice", Role := "editor" }) := by
  refine ⟨⟨by decide, rfl, rfl⟩, by decide, rfl⟩

/-- C8, amended: for every username and role, when `http.NewRequest` rejects the URL of the
members endpoint `AddMember` sends nothing and returns that error; otherwise the first request
it hands to the transport is a POST to the members endpoint whose body is the JSON object with
the two fields `username` and `role` holding the arguments, and it is the only request
whenever the transport fails or the answer is no redirect to follow; and when the response
that `http.Client` returns (the answer itself unless redirects were followed) has a 2xx status
and a body that is read and decodes to a member `m`, `AddMember` returns `m`, the value of the
response, with no error. -/
theorem addMember_spec (env : Env) (c : Client) (h : Heap) (username role : String) :
    (∀ err, env.urlError (c.buildURL ["members"]).String = some err →
      (c.AddMember env h username role).sent = [] ∧
      (c.AddMember env h username role).result = Except.error (Error.request err)) ∧
    (env.urlError (c.buildURL ["members"]).String = none →
      (∃ req rest, (c.AddMember env h username role).sent = req :: rest ∧
        req = c.client.prepare (c.addRequest username role) ∧
        req.Method = "POST" ∧
        req.URL = (c.buildURL ["members"]).String ∧
        req.Body = some (json.Value.object
          [("username", json.Value.string username), ("role", json.Value.string role)]) ∧
        req.Header.Values "Content-Type" = some ["application/json"]) ∧
      (∀ err, env.wsse c.client.Transport (c.client.prepare (c.addRequest username role))
          = Except.error err →
        (c.AddMember env h username role).sent
          = [c.client.prepare (c.addRequest username role)]) ∧
      (∀ res, env.wsse c.client.Transport (c.client.prepare (c.addRequest username role))
          = Except.ok res →
        http.followsRedirect (c.addRequest username role) res (c.addRequest username role)
          = false →
        (c.AddMember env h username role).sent
          = [c.client.prepare (c.addRequest username role)]) ∧
      (∀ (res : http.Response) (sent : List http.Request) (m : BlogMember),
        c.Do env (c.addRequest username role) = (Except.ok res, sent) →
        200 ≤ res.StatusCode ∧ res.StatusCode < 300 → res.ReadErr = none →
        env.unmarshalMember res.Body = Except.ok m →
        (c.AddMember env h username role).result = Except.ok m) ∧
      (∀ (res : http.Response) (m : BlogMember),
        env.wsse c.client.Transport (c.client.prepare (c.addRequest username role))
          = Except.ok res →
        200 ≤ res.StatusCode ∧ res.StatusCode < 300 → res.ReadErr = none →
        env.unmarshalMember res.Body = Except.ok m →
        (c.AddMember env h username role).result = Except.ok m)) := by
  refine ⟨fun err hrej => ?_, fun hurl => ⟨?_, ?_, ?_, ?_, ?_⟩⟩
  · rw [addMember_rejected env c h username role err hrej]
    exact ⟨rfl, rfl⟩
  · obtain ⟨rest, hrest⟩ := do_sent env c (c.addRequest username role)
    refine ⟨c.client.prepare (c.addRequest username role), rest, ?_, rfl, rfl, rfl, rfl, ?_⟩
    · rw [addMember_sent env c h username role hurl, hrest]
    · exact (Header.values_set_other _ "User-Agent" _ "Content-Type" (by decide)).trans rfl
  · intro err hres
    rw [addMember_sent env c h username role hurl, do_error env c _ err hres]
  · intro res hres hnf
    rw [addMember_sent env c h username role hurl, do_final env c _ res hres hnf]
  · intro res sent m hdo h2 hrd hd
    rw [addMember_ok env c h username role res sent m hurl hdo h2 hrd hd]
  · intro res m hres h2 hrd hd
    have hdo := do_final env c (c.addRequest username role) res hres
      (followsRedirect_of_2xx _ _ res h2)
    rw [addMember_ok env c h username role res _ m hurl hdo h2 hrd hd]

/-- The witness of `addMember_spec`: `AddMember("bob", "admin")` answered by status 201 with
the member `alice` sends one POST with the fields `bob` and `admin`, and returns the member
`alice` of the response, not its arguments; for the API host `a b`, whose URL is rejected, it
sends nothing. -/
theorem addMember_spec_witness :
    (spaceHostClient.AddMember strictEnv exampleHeap "bob" "admin").sent = [] ∧
    (∃ req rest, (exampleClient.AddMember (exampleEnv (Except.ok createdAlice)) exampleHeap
        "bob" "admin").sent = req :: rest ∧
      req.Method = "POST" ∧
      req.URL = "https://blog.hatena.ne.jp/owner/blog.example.com/api/members" ∧
      req.Body = some (json.Value.object
        [("username", json.Value.string "bob"), ("role", json.Value.string "admin")]) ∧
      req.Header.Values "Content-Type" = some ["application/json"]) ∧
    (exampleClient.AddMember (exampleEnv (Except.ok createdAlice)) exampleHeap "bob"
      "admin").sent = [exampleClient.client.prepare (exampleClient.addRequest "bob" "admin")] ∧
    (exampleClient.AddMember (exampleEnv (Except.ok createdAlice)) exampleHeap "bob"
      "admin").result = Except.ok { Username := "alice", Role := "editor" } :=
  ⟨((addMember_spec strictEnv spaceHostClient exampleHeap "bob" "admin").1 _ rfl).1,
   (((addMember_spec (exampleEnv (Except.ok createdAlice)) exampleClient exampleHeap "bob"
      "admin").2 rfl).1).imp fun _ hreq => hreq.imp fun _ hr =>
        ⟨hr.1, hr.2.2.1, hr.2.2.2.1.trans (by decide), hr.2.2.2.2⟩,
   ((addMember_spec (exampleEnv (Except.ok createdAlice)) exampleClient exampleHeap "bob"
      "admin").2 rfl).2.2.1 createdAlice rfl (by decide),
   ((addMember_spec (exampleEnv (Except.ok createdAlice)) exampleClient exampleHeap "bob"
      "admin").2 rfl).2.2.2.2 createdAlice _ rfl (by decide) rfl rfl⟩

/-- C7 as stated fails.  The username is joined to the path with `path.Join`, which cleans the
result: on the client of the tests, `DeleteMember("..")` sends its DELETE request to the API
base `https://blog.hatena.ne.jp/owner/blog.example.com/api` and `DeleteMember("")` sends it to
the members endpoint itself.  The rendered URL escapes the username: for `a?b` it ends in
`/members/a%3Fb`.  And when the DELETE is answered by a redirect with a `Location`,
`http.Client` sends a second request. -/
theorem deleteMember_dotdot_not_under_members :
    (∃ req, (exampleClient.DeleteMember (exampleEnv (Except.ok okEmpty)) exampleHeap "..").sent
        = [req] ∧ req.Method = "DELETE" ∧
      req.URL = "https://blog.hatena.ne.jp/owner/blog.example.com/api" ∧
      req.URL ≠ (exampleClient.buildURL []).String ++ "/members/" ++ "..") ∧
    (∃ req, (exampleClient.DeleteMember (exampleEnv (Except.ok okEmpty)) exampleHeap "").sent
        = [req] ∧ req.Method = "DELETE" ∧
      req.URL = "https://blog.hatena.ne.jp/owner/blog.example.com/api/members" ∧
      req.URL ≠ (exampleClient.buildURL []).String ++ "/members/" ++ "") ∧
    (∃ req, (exampleClient.DeleteMember (exampleEnv (Except.ok okEmpty)) exampleHeap
        "a?b").sent = [req] ∧ req.Method = "DELETE" ∧
      req.URL = "https://blog.hatena.ne.jp/owner/blog.example.com/api/members/a%3Fb" ∧
      req.URL ≠ (exampleClient.buildURL []).String ++ "/members/" ++ "a?b") ∧
    (exampleClient.DeleteMember (redirectingEnv movedElsewhere okEmpty) exampleHeap
      "member").sent.map (fun req => (req.Method, req.URL))
      = [("DELETE", "https://blog.hatena.ne.jp/owner/blog.example.com/api/members/member"),
         ("GET", "https://blog.hatena.ne.jp/elsewhere")] ∧
    (exampleClient.buildURL []).String = "https://blog.hatena.ne.jp/owner/blog.example.com/api" :=
  ⟨⟨exampleClient.client.prepare (exampleClient.deleteRequest ".."), rfl, rfl, by decide,
      by decide⟩,
   ⟨exampleClient.client.prepare (exampleClient.deleteRequest ""), rfl, rfl, by decide,
      by decide⟩,
   ⟨exampleClient.client.prepare (exampleClient.deleteRequest "a?b"), rfl, rfl, by decide,
      by decide⟩,
   by decide,
   by decide⟩

/-- C7, amended: for every username, when `http.NewRequest` rejects the URL `DeleteMember`
sends nothing and returns that error; otherwise the first request it hands to the transport is
a DELETE without body to the rendering of the URL made of the scheme, the API host and the
`path.Join` of owner, blog host, `api`, `members` and the username, and it is the only request
whenever the transport fails or the answer is no redirect to follow.  When the username is a
single real path element (not empty, no slash, neither `.` nor `..`), that URL is the rendering
of the API base followed by `/members/` and the username escaped as `net/url` escapes a path,
which is the username itself when none of its characters needs escaping. -/
theorem deleteMember_request (env : Env) (c : Client) (h : Heap) (username : String) :
    (∀ err, env.urlError (c.buildURL ["members", username]).String = some err →
      (c.DeleteMember env h username).sent = [] ∧
      (c.DeleteMember env h username).result = Except.error (Error.request err)) ∧
    (env.urlError (c.buildURL ["members", username]).String = none →
      (∃ req rest, (c.DeleteMember env h username).sent = req :: rest ∧
        req = c.client.prepare (c.deleteRequest username) ∧
        req.Method = "DELETE" ∧ req.Body = none ∧
        req.URL = (url.URL.mk (if c.insecure then "http" else "https") c.hatenablogHost
          (path.Join [c.owner, c.blogHost, "api", "members", username])).String) ∧
      (∀ err, env.wsse c.client.Transport (c.client.prepare (c.deleteRequest username))
          = Except.error err →
        (c.DeleteMember env h username).sent
          = [c.client.prepare (c.deleteRequest username)]) ∧
      (∀ res, env.wsse c.client.Transport (c.client.prepare (c.deleteRequest username))
          = Except.ok res →
        http.followsRedirect (c.deleteRequest username) res (c.deleteRequest username)
          = false →
        (c.DeleteMember env h username).sent
          = [c.client.prepare (c.deleteRequest username)])) ∧
    (path.IsSegment username →
      (c.deleteRequest username).URL
        = (c.buildURL []).String ++ "/members/" ++
            url.escape username url.encoding.encodePath ∧
      (url.Unescaped username url.encoding.encodePath →
        (c.deleteRequest username).URL
          = (c.buildURL []).String ++ "/members/" ++ username)) := by
  refine ⟨fun err hrej => ?_, fun hurl => ⟨?_, ?_, ?_⟩, fun hseg => ⟨?_, fun hun => ?_⟩⟩
  · rw [deleteMember_rejected env c h username err hrej]
    exact ⟨rfl, rfl⟩
  · obtain ⟨rest, hrest⟩ := do_sent env c (c.deleteRequest username)
    refine ⟨c.client.prepare (c.deleteRequest username), rest, ?_, rfl, rfl, rfl, rfl⟩
    rw [deleteMember_sent env c h username hurl, hrest]
  · intro err hres
    rw [deleteMember_sent env c h username hurl, do_error env c _ err hres]
  · intro res hres hnf
    rw [deleteMember_sent env c h username hurl, do_final env c _ res hres hnf]
  · exact buildURL_member_string c username hseg
  · have := buildURL_member_string c username hseg
    rw [url.escape_unescaped username _ hun] at this
    exact this

/-- The witness of `deleteMember_request`: on the client of the tests,
`DeleteMember("member")` answered by 200 sends one DELETE to
`https://blog.hatena.ne.jp/owner/blog.example.com/api/members/member`; `member` is a single
real path element without characters to escape. -/
theorem deleteMember_request_witness :
    (∃ req rest, (exampleClient.DeleteMember (exampleEnv (Except.ok okEmpty)) exampleHeap
        "member").sent = req :: rest ∧
      req.Method = "DELETE" ∧ req.Body = none ∧
      req.URL = "https://blog.hatena.ne.jp/owner/blog.example.com/api/members/member") ∧
    (exampleClient.DeleteMember (exampleEnv (Except.ok okEmpty)) exampleHeap "member").sent
      = [exampleClient.client.prepare (exampleClient.deleteRequest "member")] ∧
    path.IsSegment "member" ∧ url.Unescaped "member" url.encoding.encodePath ∧
    (exampleClient.deleteRequest "member").URL
      = (exampleClient.buildURL []).String ++ "/members/" ++ "member" ∧
    (spaceHostClient.DeleteMember rejectingEnv exampleHeap "member").sent = [] :=
  ⟨(((deleteMember_request (exampleEnv (Except.ok okEmpty)) exampleClient exampleHeap
      "member").2.1 rfl).1).imp fun _ hreq => hreq.imp fun _ hr =>
        ⟨hr.1, hr.2.2.1, hr.2.2.2.1, hr.2.2.2.2.trans (by decide)⟩,
   ((deleteMember_request (exampleEnv (Except.ok okEmpty)) exampleClient exampleHeap
      "member").2.1 rfl).2.2 okEmpty rfl (by decide),
   ⟨by decide, by decide, by decide, by decide⟩,
   (by unfold url.Unescaped; decide),
   ((deleteMember_request (exampleEnv (Except.ok okEmpty)) exampleClient exampleHeap
      "member").2.2 ⟨by decide, by decide, by decide, by decide⟩).2
      (by unfold url.Unescaped; decide),
   ((deleteMember_request rejectingEnv spaceHostClient exampleHeap "member").1 _ rfl).1⟩

end HatenablogMembers
